import Mathlib

/-!
Verification development for the CrystallineHighway textual memory engine
(`src/crystalline_highway`).  The Python sources are shallowly embedded:

* Python `dict`s become insertion-ordered association lists (`PyDict`),
  matching CPython's guaranteed insertion-order iteration;
* Python `int`s become `Nat` (all counters in the source are guarded by
  `max(0, _)` or only ever incremented) or `Int` where signed values occur
  (output quotas);
* Python `float`s become `ℝ` where transcendental operations occur
  (`math.sqrt`, `**`, `math.log2`) and `ℚ` where only ordered-field
  arithmetic occurs (TTL accounting and hub penalties in the retrieval
  path), so that the retrieval path stays fully executable;
* `random` jitter and the external word-vector provider are injected as
  explicit parameters, following the spec's instruction that both are
  replaceable collaborators;
* fallible operations return `Except PyError _`; in particular the
  `MetaEntry(...)` constructor call in `Registry.ensure_meta` passes a
  keyword argument `normalized_text` that the `MetaEntry` dataclass does
  not declare, which in Python raises `TypeError` - the embedding makes
  that explicit.
-/

namespace CrystallineHighway

/-! ## Insertion-ordered dictionaries (CPython `dict` semantics) -/

namespace PyDict

variable {κ α : Type} [DecidableEq κ]

/-- First-match lookup, matching `d.get(k)` / `d[k]`. -/
def get : List (κ × α) → κ → Option α
  | [], _ => none
  | (k2, v) :: t, k => if k2 = k then some v else get t k

/-- `d[k] = v`: replace in place if the key exists, else append at the end
(CPython dicts preserve insertion order and keep a re-assigned key at its
original position). -/
def set : List (κ × α) → κ → α → List (κ × α)
  | [], k, v => [(k, v)]
  | (k2, v2) :: t, k, v => if k2 = k then (k, v) :: t else (k2, v2) :: set t k v

/-- `d.setdefault(k, v)` (dictionary part only): append the key with the
default value if absent. -/
def setdefault (l : List (κ × α)) (k : κ) (v : α) : List (κ × α) :=
  if (get l k).isSome then l else l ++ [(k, v)]

/-- `k in d`. -/
def contains (l : List (κ × α)) (k : κ) : Bool :=
  (get l k).isSome

end PyDict

/-! ## `core/text_utils.py` -/

/-- The character class of `PUNCTUATION_PATTERN`: ASCII whitespace,
the ideographic space `　`, and the explicitly listed CJK/ASCII
punctuation marks.  (`\s` in CPython also matches a few rarer Unicode
spaces; none of the texts in this development contain them.)
`Char.ofNat 34`/`39` are the double/single quote characters. -/
def punctuationChars : List Char :=
  [' ', '\t', '\n', '\r', Char.ofNat 11, Char.ofNat 12, Char.ofNat 0x3000,
   '。', '！', '？', '!', '?', '；', ';', '，', ',', '、', '：', ':',
   '「', '」', '『', '』', '“', '”', Char.ofNat 34, Char.ofNat 39,
   '（', '）', '(', ')', '【', '】', '[', ']', '《', '》', '<', '>',
   '…', '—', '-', '·']

/-- `normalize_text`: delete whitespace and punctuation, keep the core
character sequence. -/
def normalize_text (text : String) : String :=
  String.mk (text.toList.filter (fun c => ¬ punctuationChars.contains c))

/-! ## `config.py` — the tunable parameters used by the core paths.
Fields tied to external collaborators (storage paths, segmentation and
word-vector file locations, calibration file handling) are omitted; the
collaborators themselves are injected as parameters of the embedding. -/

structure MemoryConfig where
  vector_dim : ℕ := 200
  radius_floor : ℝ := 0
  radius_ceiling : ℝ := 100
  frequency_hit_probability : ℝ := 1/2
  frequency_private_beta : ℝ := 1/2
  frequency_private_cap : ℝ := 5
  frequency_private_typical_default : ℝ := 10
  frequency_eps : ℝ := 1/10^12
  jitter_scale : ℝ := 1/20
  crystallize_threshold : ℕ := 2
  retrieval_ttl : ℚ := 10
  hub_penalty_cap : ℚ := 2
  crystallize_radius_multiplier : ℝ := 2
  crystallize_offset_scale : ℝ := 1/5
  recitation_max_rounds : ℕ := 5
  retrieval_quota_short : ℤ := 9
  retrieval_quota_long : ℤ := 6
  retrieval_quota_paragraph : ℤ := 3
  retrieval_quota_memory : ℤ := 1
  retrieval_quota_possible : ℤ := 2
  storage_auto_save : Bool := true

/-! ## `frequency/calibration.py` and `frequency/tolerance.py` -/

structure FrequencyCalibration where
  distance_quantiles : List (ℝ × ℝ)
  avg_freq : ℝ
  version : ℕ := 1

/-- First element of the list minimizing `f`, replacing the current best
only on a strictly smaller key: this equals
`sorted(items, key=f)[0]` because Python's sort is stable. -/
noncomputable def selectMinBy (f : ℝ → ℝ) : List (ℝ × ℝ) → Option (ℝ × ℝ)
  | [] => none
  | h :: t => some (t.foldl (fun best x =>
      if f x.1 < f best.1 then x else best) h)

open Classical in
/-- `FrequencyCalibration.distance_scale`. -/
noncomputable def FrequencyCalibration.distance_scale
    (c : FrequencyCalibration) (probability : ℝ) : ℝ :=
  if c.distance_quantiles = [] then 1
  else match PyDict.get c.distance_quantiles probability with
    | some v => v
    | none =>
      match selectMinBy (fun k => |k - probability|) c.distance_quantiles with
      | some p => p.2
      | none => 1

open Classical in
/-- `statistics.median`: middle of the sorted values, or mean of the two
middles for an even count. -/
noncomputable def pymedian (values : List ℝ) : ℝ :=
  let sorted := values.mergeSort (fun a b => a ≤ b)
  let n := values.length
  if n % 2 = 1 then sorted.getD (n / 2) 0
  else (sorted.getD (n / 2 - 1) 0 + sorted.getD (n / 2) 0) / 2

/-- `tolerance.private_typical`: median of the positive private counts,
or the default. -/
noncomputable def private_typical (private_counts : List ℝ) (default : ℝ) : ℝ :=
  let values := private_counts.filter (fun c => 0 < c)
  if values = [] then default else pymedian values

/-- `tolerance.private_boost`. -/
noncomputable def private_boost (private_count typical beta cap : ℝ) : ℝ :=
  let ratio := private_count / max typical 1
  let boost := (1 + ratio) ^ beta
  min boost cap

/-- `tolerance.effective_frequency`. -/
noncomputable def effective_frequency
    (global_freq private_count typical beta cap eps : ℝ) : ℝ :=
  let boost := private_boost private_count typical beta cap
  max global_freq eps * boost

open Classical in
/-- `tolerance.radius_from_frequency`. -/
noncomputable def radius_from_frequency (calibration : FrequencyCalibration)
    (effective_freq hit_probability avg_freq radius_min radius_max eps : ℝ) : ℝ :=
  let distance_scale := calibration.distance_scale hit_probability
  let radius := distance_scale * (avg_freq / max effective_freq eps)
  if radius < radius_min then radius_min
  else if radius > radius_max then radius_max
  else radius

/-! ## `MemorySystem._crystallize_threshold`
`math.ceil(math.log2 n)` on a positive integer `n` is the least `k` with
`n ≤ 2 ^ k`, i.e. `Nat.clog 2 n`; it is embedded as a structurally
recursive (hence executable) halving loop whose fuel `n` dominates the
number of halvings, and proved equal to `Nat.clog 2` and to
`⌈Real.logb 2 n⌉` as part of claim C2. -/

def clog2_fuel : ℕ → ℕ → ℕ
  | 0, _ => 0
  | fuel + 1, n => if n ≤ 1 then 0 else clog2_fuel fuel ((n + 1) / 2) + 1

def ceil_log2 (n : ℕ) : ℕ := clog2_fuel n n

def MemorySystem.crystallize_threshold (config : MemoryConfig) (total_count : ℕ) : ℕ :=
  if total_count ≤ 1 then config.crystallize_threshold
  else ceil_log2 total_count + 1

/-! ## `models/graph.py` -/

inductive EdgeType where
  | horizontal
  | vertical
  deriving DecidableEq, Repr

structure EdgeData where
  edge_type : EdgeType
  walk_count : ℕ := 0
  deriving DecidableEq, Repr

/-- `Graph`: adjacency in both directions.  In Python the two maps alias
the same `EdgeData` objects; every mutation below therefore updates both
maps, which keeps them consistent exactly as the aliasing does. -/
structure Graph where
  out_edges : List (String × List (String × EdgeData)) := []
  in_edges : List (String × List (String × EdgeData)) := []
  deriving Repr

namespace Graph

def ensure_node (g : Graph) (node_id : String) : Graph :=
  { g with out_edges := PyDict.setdefault g.out_edges node_id []
           in_edges := PyDict.setdefault g.in_edges node_id [] }

/-- Write the edge record into both adjacency maps (the Python object is
shared between them). -/
def write_edge (g : Graph) (src_id dst_id : String) (e : EdgeData) : Graph :=
  { g with
    out_edges := PyDict.set g.out_edges src_id
      (PyDict.set ((PyDict.get g.out_edges src_id).getD []) dst_id e)
    in_edges := PyDict.set g.in_edges dst_id
      (PyDict.set ((PyDict.get g.in_edges dst_id).getD []) src_id e) }

/-- `Graph.add_edge`: create the edge with count 0 if absent, then
increment the (shared) walk count. -/
def add_edge (g : Graph) (src_id dst_id : String) (edge_type : EdgeType) : Graph :=
  let g := (g.ensure_node src_id).ensure_node dst_id
  match PyDict.get ((PyDict.get g.out_edges src_id).getD []) dst_id with
  | none => g.write_edge src_id dst_id { edge_type := edge_type, walk_count := 1 }
  | some e => g.write_edge src_id dst_id { e with walk_count := e.walk_count + 1 }

def get_edge (g : Graph) (src_id dst_id : String) : Option EdgeData :=
  PyDict.get ((PyDict.get g.out_edges src_id).getD []) dst_id

/-- `Graph.neighbors`: a copy of the out-adjacency of `node_id`; with
`include_reverse_horizontal` the horizontal in-neighbours are added via
`setdefault` (so an existing key keeps its out-edge record). -/
def neighbors (g : Graph) (node_id : String) (include_reverse_horizontal : Bool) :
    List (String × EdgeData) :=
  let base := (PyDict.get g.out_edges node_id).getD []
  if include_reverse_horizontal then
    ((PyDict.get g.in_edges node_id).getD []).foldl
      (fun acc p =>
        if p.2.edge_type = EdgeType.horizontal then PyDict.setdefault acc p.1 p.2 else acc)
      base
  else base

/-- `Graph.downgrade_edge`: `walk_count = max(0, walk_count - decrement)`
(`Nat` subtraction is exactly the `max(0, _)` form). -/
def downgrade_edge (g : Graph) (src_id dst_id : String) (decrement : ℕ) : Graph :=
  match g.get_edge src_id dst_id with
  | none => g
  | some e => g.write_edge src_id dst_id { e with walk_count := e.walk_count - decrement }

/-- `Graph.reset_edge`: `walk_count = max(0, count)`. -/
def reset_edge (g : Graph) (src_id dst_id : String) (count : ℕ) : Graph :=
  match g.get_edge src_id dst_id with
  | none => g
  | some e => g.write_edge src_id dst_id { e with walk_count := count }

end Graph

/-! ## `models/instance.py`, `models/meta.py`, `storage/in_memory.py` -/

structure InstanceStats where
  use_count : ℕ := 0
  pass_count : ℕ := 0
  refractory : ℕ := 0
  deriving DecidableEq, Repr

/-- Instance positions are vectors of Python floats, embedded as `ℝ`
(their arithmetic passes through `math.sqrt`); the hub penalty only ever
meets ordered-field arithmetic in the retrieval path and is embedded as
`ℚ` to keep that path executable. -/
structure InstanceNode where
  node_id : String
  meta_id : String
  vector_pos : List ℝ
  stats : InstanceStats := {}
  hub_penalty : ℚ := 0
  payload : List (String × String) := []

/-- `MetaEntry` exactly as the dataclass declares it: in particular it has
NO `normalized_text` field (the table key carries the normalized text).
`instances` and `labels` are Python `set`s used only for membership,
insertion and iteration; they are embedded as append-if-absent lists. -/
structure MetaEntry where
  meta_id : String
  text : String
  global_freq : ℝ
  private_freq : ℝ
  level : ℕ := 0
  instances : List String := []
  crystallized_count : ℕ := 1
  labels : List String := []
  category_vector : List ℝ := []

structure InMemoryStore where
  meta_table : List (String × MetaEntry) := []
  instance_table : List (String × InstanceNode) := []
  graph : Graph := {}

/-! ## `models/session.py` -/

structure SessionState where
  ttl_budget : ℚ
  light_count : List (String × ℕ) := []
  hit_sources : List (String × List String) := []
  deriving DecidableEq

/-- `SessionState.touch`. -/
def SessionState.touch (s : SessionState) (node_id source : String) : SessionState :=
  { s with
    light_count := PyDict.set s.light_count node_id
      ((PyDict.get s.light_count node_id).getD 0 + 1)
    hit_sources := PyDict.set s.hit_sources node_id
      (((PyDict.get s.hit_sources node_id).getD []) ++ [source]) }

/-! ## Stable sorting (CPython `sorted` with a negated-count key) -/

/-- Insert before the first element with a strictly smaller key: with a
left fold this reproduces Python's stable descending sort
`sorted(items, key=lambda item: -key(item))`. -/
def insertDescBy {α : Type} (key : α → ℕ) (x : α) : List α → List α
  | [] => [x]
  | y :: ys => if key y < key x then x :: y :: ys else y :: insertDescBy key x ys

def sortDescBy {α : Type} (key : α → ℕ) (l : List α) : List α :=
  l.foldl (fun acc x => insertDescBy key x acc) []

/-! ## `MemorySystem` — retrieval path
(`retrieve`, `_resolve_query_seed_nodes`, `_prefer_longer_tokens`,
`_collect_retrieval_results`, `_meta_from_id`, `_meta_labels`).

Failure via `Option`: `none` models a raised `KeyError` (a graph
neighbour or ranked node id missing from the instance table) or — for the
diffusion loop only — exhaustion of the explicit fuel that stands in for
Python's unbounded `while frontier:` loop. -/

namespace MemorySystem

/-- `_prefer_longer_tokens`: merge an adjacent pair when the concatenation
is already a registered meta (left-to-right, non-overlapping). -/
def prefer_longer_tokens (store : InMemoryStore) : List String → List String
  | [] => []
  | [t] => [t]
  | t1 :: t2 :: rest =>
    if PyDict.contains store.meta_table (normalize_text (t1 ++ t2)) then
      (t1 ++ t2) :: prefer_longer_tokens store rest
    else
      t1 :: prefer_longer_tokens store (t2 :: rest)

/-- `[table[node_id] for node_id in ids]` — `KeyError` (`none`) if an id
is missing. -/
def lookup_instances (store : InMemoryStore) : List String → Option (List InstanceNode)
  | [] => some []
  | nid :: rest =>
    match PyDict.get store.instance_table nid with
    | none => none
    | some node =>
      match lookup_instances store rest with
      | none => none
      | some tail => some (node :: tail)

/-- `_resolve_query_seed_nodes`: for each token with a registered meta and
a non-empty instance set, the instance with the highest use count (ties by
instance-set order, Python's stable sort). -/
def resolve_query_seed_nodes (store : InMemoryStore) : List String → Option (List InstanceNode)
  | [] => some []
  | token :: rest =>
    match PyDict.get store.meta_table (normalize_text token) with
    | none => resolve_query_seed_nodes store rest
    | some meta =>
      match lookup_instances store meta.instances with
      | none => none
      | some candidates =>
        match sortDescBy (fun n => n.stats.use_count) candidates with
        | [] => resolve_query_seed_nodes store rest
        | best :: _ =>
          match resolve_query_seed_nodes store rest with
          | none => none
          | some tail => some (best :: tail)

/-- `_meta_from_id`: linear scan of the meta table in insertion order. -/
def meta_from_id (store : InMemoryStore) (meta_id : String) : Option MetaEntry :=
  (store.meta_table.find? (fun kv => kv.2.meta_id = meta_id)).map (fun kv => kv.2)

/-- `_meta_labels`. -/
def meta_labels (store : InMemoryStore) (text : String) : List String :=
  match PyDict.get store.meta_table (normalize_text text) with
  | none => []
  | some meta => meta.labels

/-- The neighbour loop body of `retrieve`: penalty-decayed TTL, touch and
enqueue when the budget survives. -/
def expand_neighbors (store : InMemoryStore) (config : MemoryConfig)
    (current_id : String) (ttl : ℚ) (nbrs : List (String × EdgeData))
    (session : SessionState) : Option (SessionState × List (String × ℚ)) :=
  nbrs.foldl
    (fun acc p =>
      match acc with
      | none => none
      | some (sess, entries) =>
        match PyDict.get store.instance_table p.1 with
        | none => none
        | some neighbor_node =>
          let penalty := min neighbor_node.hub_penalty config.hub_penalty_cap
          let next_ttl := ttl - 1 - penalty
          if next_ttl < 0 then some (sess, entries)
          else some (sess.touch p.1 current_id, entries ++ [(p.1, next_ttl)]))
    (some (session, []))

/-- The FIFO diffusion loop of `retrieve` (`frontier.pop(0)` /
`frontier.append` become dequeue from the head / enqueue at the tail). -/
def diffuse (store : InMemoryStore) (config : MemoryConfig) :
    ℕ → List (String × ℚ) → SessionState → Option SessionState
  | _, [], session => some session
  | 0, _ :: _, _ => none
  | fuel + 1, (current_id, ttl) :: rest, session =>
    if ttl ≤ 0 then diffuse store config fuel rest session
    else
      match PyDict.get store.instance_table current_id with
      | none => none
      | some _current_node =>
        match expand_neighbors store config current_id ttl
            (store.graph.neighbors current_id true) session with
        | none => none
        | some (session2, new_entries) =>
          diffuse store config fuel (rest ++ new_entries) session2

/-- One labelled pass of `_collect_retrieval_results`. -/
def add_by_label (store : InMemoryStore) (session : SessionState)
    (label : String) (quota : ℤ) :
    List (String × ℕ) → List (String × List String) × List String →
    Option (List (String × List String) × List String)
  | [], st => some st
  | (node_id, _count) :: rest, (results, selected) =>
    if selected.contains node_id then
      add_by_label store session label quota rest (results, selected)
    else
      match PyDict.get store.instance_table node_id with
      | none => none
      | some node =>
        match meta_from_id store node.meta_id with
        | none => add_by_label store session label quota rest (results, selected)
        | some meta =>
          if label ∈ meta.labels then
            let results2 := PyDict.set results meta.text
              ((PyDict.get session.hit_sources node_id).getD [])
            let selected2 := selected ++ [node_id]
            if quota ≤ ((results2.filter
                (fun kv => label ∈ meta_labels store kv.1)).length : ℤ) then
              some (results2, selected2)
            else
              add_by_label store session label quota rest (results2, selected2)
          else
            add_by_label store session label quota rest (results, selected)

/-- The final "possibly relevant" pass of `_collect_retrieval_results`:
note that the quota is decremented only after adding, so the first
unselected instance is always admitted. -/
def fill_possible (store : InMemoryStore) (session : SessionState) :
    ℤ → List (String × ℕ) → List (String × List String) × List String →
    Option (List (String × List String) × List String)
  | _, [], st => some st
  | possible_quota, (node_id, _count) :: rest, (results, selected) =>
    if selected.contains node_id then
      fill_possible store session possible_quota rest (results, selected)
    else
      match PyDict.get store.instance_table node_id with
      | none => none
      | some node =>
        match meta_from_id store node.meta_id with
        | none => fill_possible store session possible_quota rest (results, selected)
        | some meta =>
          let results2 := PyDict.set results meta.text
            ((PyDict.get session.hit_sources node_id).getD [])
          let selected2 := selected ++ [node_id]
          if possible_quota - 1 ≤ 0 then some (results2, selected2)
          else fill_possible store session (possible_quota - 1) rest (results2, selected2)

/-- `_collect_retrieval_results`. -/
def collect_retrieval_results (store : InMemoryStore) (config : MemoryConfig)
    (ranked : List (String × ℕ)) (session : SessionState) :
    Option (List (String × List String)) :=
  match add_by_label store session "short_sentence" config.retrieval_quota_short ranked ([], []) with
  | none => none
  | some st1 =>
    match add_by_label store session "long_sentence" config.retrieval_quota_long ranked st1 with
    | none => none
    | some st2 =>
      match add_by_label store session "paragraph" config.retrieval_quota_paragraph ranked st2 with
      | none => none
      | some st3 =>
        match add_by_label store session "full_text" config.retrieval_quota_memory ranked st3 with
        | none => none
        | some st4 =>
          match fill_possible store session config.retrieval_quota_possible ranked st4 with
          | none => none
          | some st5 => some st5.1

/-- The token pre-processing shared by `retrieve` (blank-token filter and
longest-match merge). -/
def retrieve_tokens (store : InMemoryStore) (query_tokens : List String) : List String :=
  prefer_longer_tokens store (query_tokens.filter (fun t => normalize_text t ≠ ""))

/-- The seed resolution step of `retrieve`. -/
def retrieve_seeds (store : InMemoryStore) (query_tokens : List String) :
    Option (List InstanceNode) :=
  resolve_query_seed_nodes store (retrieve_tokens store query_tokens)

/-- The diffusion phase of `retrieve`: the session after the multi-source
spread (`none` when no seeds resolve, a lookup fails, or fuel runs out). -/
def retrieve_session (fuel : ℕ) (store : InMemoryStore) (config : MemoryConfig)
    (query_tokens : List String) : Option SessionState :=
  match retrieve_seeds store query_tokens with
  | none => none
  | some [] => none
  | some (seed :: seeds) =>
    let seed_nodes := seed :: seeds
    let session0 : SessionState := { ttl_budget := config.retrieval_ttl }
    let frontier := seed_nodes.map (fun n => (n.node_id, session0.ttl_budget))
    let session1 := seed_nodes.foldl (fun s n => s.touch n.node_id n.node_id) session0
    diffuse store config fuel frontier session1

/-- `MemorySystem.retrieve`.  The store is threaded through and returned so
that the frame claim (C6) is a statement about this definition: no step of
the source mutates `self.store`, and accordingly every branch returns the
input store. -/
def retrieve (fuel : ℕ) (store : InMemoryStore) (config : MemoryConfig)
    (query_tokens : List String) :
    InMemoryStore × Option (List (String × List String)) :=
  match retrieve_seeds store query_tokens with
  | none => (store, none)
  | some [] => (store, some [])
  | some (_ :: _) =>
    match retrieve_session fuel store config query_tokens with
    | none => (store, none)
    | some session2 =>
      let ranked := sortDescBy (fun p => p.2) session2.light_count
      match collect_retrieval_results store config ranked session2 with
      | none => (store, none)
      | some results => (store, some results)

end MemorySystem

/-! ## Traversable reachability (for the diffusion claims)

`reach g k n` is the ball of radius `k` around `n` along traversable
edges: out-edges of any kind (so hierarchical edges only in the
base → crystallized direction) plus sequential (horizontal) edges in
reverse — exactly `Graph.neighbors _ _ true`.  `m ∈ reach g k n` holds iff
there is a traversable walk of length at most `k` from `n` to `m`, i.e.
iff the shortest traversable distance from `n` to `m` is at most `k`. -/

def reach (g : Graph) : ℕ → String → List String
  | 0, n => [n]
  | k + 1, n => n :: (g.neighbors n true).flatMap (fun p => reach g k p.1)

/-- Shortest traversable distance from `src` to `dst` is at most `k`. -/
def within_hops (g : Graph) (k : ℕ) (src dst : String) : Prop :=
  dst ∈ reach g k src

/-- Every node id referenced by the graph adjacency exists in the
instance table (otherwise the diffusion loop raises `KeyError`). -/
def graph_ids_present (store : InMemoryStore) : Prop :=
  (∀ kv ∈ store.graph.out_edges, ∀ p ∈ kv.2,
    (PyDict.get store.instance_table p.1).isSome = true)
  ∧ (∀ kv ∈ store.graph.in_edges, ∀ p ∈ kv.2,
    (PyDict.get store.instance_table p.1).isSome = true)

instance (store : InMemoryStore) : Decidable (graph_ids_present store) := by
  unfold graph_ids_present
  infer_instance

/-- A node has been touched by the diffusion session. -/
def touched (s : SessionState) (n : String) : Prop :=
  (PyDict.get s.light_count n).isSome = true

instance (s : SessionState) (n : String) : Decidable (touched s n) := by
  unfold touched
  infer_instance

/-- The integer value of a TTL that is a natural number cast to `ℚ`
(every TTL occurring in a run started from an integer budget with zero
hub penalties has this shape). -/
def natTtl (t : ℚ) : ℕ := (⌈t⌉).toNat

/-- The seed session built at the start of `retrieve`: every seed is
touched once, by itself. -/
def MemorySystem.seed_session (config : MemoryConfig) (seeds : List String) : SessionState :=
  seeds.foldl (fun s n => s.touch n n) { ttl_budget := config.retrieval_ttl }

/-- The seed frontier built at the start of `retrieve`. -/
def MemorySystem.seed_frontier (config : MemoryConfig) (seeds : List String) :
    List (String × ℚ) :=
  seeds.map (fun n => (n, config.retrieval_ttl))

/-- Fuel measure that dominates the diffusion loop: each frontier entry
of TTL `t` costs `(B+1)^natTtl t` where `B` bounds the neighbour count. -/
def frontier_measure (bound : ℕ) (frontier : List (String × ℚ)) : ℕ :=
  (frontier.map (fun e => (bound + 1) ^ natTtl e.2)).sum

/-- Total number of adjacency records of the graph: an upper bound for
the neighbour count of any single node. -/
def Graph.adj_size (g : Graph) : ℕ :=
  (g.out_edges.map (fun kv => kv.2.length)).sum
    + (g.in_edges.map (fun kv => kv.2.length)).sum

/-! ## Concrete fixtures used by witnesses and counterexamples -/

/-- A bare instance for the retrieval fixtures (positions are irrelevant
to the retrieval path). -/
def mkNode (nid mid : String) (use : ℕ) : InstanceNode :=
  { node_id := nid, meta_id := mid, vector_pos := [],
    stats := { use_count := use } }

/-- A six-node horizontal chain `a - b - c - d - e - f` with every hub
penalty zero: from seed `a`, nodes up to `e` are four hops away and `f`
is five hops away. -/
def c5_store : InMemoryStore :=
  { meta_table := []
    instance_table :=
      [("a", mkNode "a" "m" 0), ("b", mkNode "b" "m" 0), ("c", mkNode "c" "m" 0),
       ("d", mkNode "d" "m" 0), ("e", mkNode "e" "m" 0), ("f", mkNode "f" "m" 0)]
    graph :=
      { out_edges :=
          [("a", [("b", ⟨EdgeType.horizontal, 1⟩)]),
           ("b", [("c", ⟨EdgeType.horizontal, 1⟩)]),
           ("c", [("d", ⟨EdgeType.horizontal, 1⟩)]),
           ("d", [("e", ⟨EdgeType.horizontal, 1⟩)]),
           ("e", [("f", ⟨EdgeType.horizontal, 1⟩)])]
        in_edges :=
          [("b", [("a", ⟨EdgeType.horizontal, 1⟩)]),
           ("c", [("b", ⟨EdgeType.horizontal, 1⟩)]),
           ("d", [("c", ⟨EdgeType.horizontal, 1⟩)]),
           ("e", [("d", ⟨EdgeType.horizontal, 1⟩)]),
           ("f", [("e", ⟨EdgeType.horizontal, 1⟩)])] } }

/-! ## `core/vector.py` — vector arithmetic over `ℝ`
(`math.sqrt` forces the real embedding; Python `zip` truncates to the
shorter list, as `List.zipWith` does). -/

def zero_vector (dim : ℕ) : List ℝ := List.replicate dim 0

def vadd (a b : List ℝ) : List ℝ := List.zipWith (fun x y => x + y) a b

def vscale (vec : List ℝ) (s : ℝ) : List ℝ := vec.map (fun x => x * s)

/-- `vector.mean`: elementwise mean (callers pass same-dimension
vectors). -/
noncomputable def vmean (vectors : List (List ℝ)) : List ℝ :=
  match vectors with
  | [] => []
  | v0 :: _ =>
    (vectors.foldl vadd (zero_vector v0.length)).map
      (fun value => value / (vectors.length : ℝ))

noncomputable def vdist (a b : List ℝ) : ℝ :=
  Real.sqrt ((List.zipWith (fun x y => (x - y) ^ 2) a b).sum)

open Classical in
noncomputable def vnormalize (vec : List ℝ) : List ℝ :=
  let norm := Real.sqrt ((vec.map (fun x => x * x)).sum)
  if norm = 0 then vec else vec.map (fun x => x / norm)

/-- Python `sorted` as a stable insertion sort parametrized by the strict
"comes before" relation of the sort key. -/
def pyInsertBy {α : Type} (strict : α → α → Prop) [DecidableRel strict] (x : α) :
    List α → List α
  | [] => [x]
  | y :: ys => if strict x y then x :: y :: ys else y :: pyInsertBy strict x ys

def pySortBy {α : Type} (strict : α → α → Prop) [DecidableRel strict] (l : List α) :
    List α :=
  l.foldl (fun acc x => pyInsertBy strict x acc) []

/-! ## The write path: `Registry` and the `MemorySystem` find-or-build
flow.  Mutable state is `SystemState` (store plus the registry's two
id counters, `itertools.count(1)`).  The external collaborators are
parameters: `vp` is `WordVectorProvider.get_vector`, `jit` is
`vector.jitter` (the injected randomness source; `jitter(dim, 0.0)` is
the zero vector, as `random.uniform(-0.0, 0.0) = 0.0`), `cal` is the
loaded `FrequencyCalibration`.  `Except PyError` models raised
exceptions; persistence (`_save_if_needed`) is outside the core and is a
no-op on the in-memory state. -/

inductive PyError where
  | typeError
  | keyError
  deriving DecidableEq, Repr

structure SystemState where
  store : InMemoryStore := {}
  meta_counter : ℕ := 1
  node_counter : ℕ := 1

/-- Mutating the (unique) meta object with a given id, as Python's
aliased in-place mutation does. -/
def update_meta_by_id (table : List (String × MetaEntry)) (mid : String)
    (f : MetaEntry → MetaEntry) : List (String × MetaEntry) :=
  table.map (fun kv => if kv.2.meta_id = mid then (kv.1, f kv.2) else kv)

/-- Mutating the instance object with a given id in place. -/
def update_instance (store : InMemoryStore) (nid : String)
    (f : InstanceNode → InstanceNode) : InMemoryStore :=
  { store with
    instance_table :=
      match PyDict.get store.instance_table nid with
      | none => store.instance_table
      | some nd => PyDict.set store.instance_table nid (f nd) }

namespace Registry

/-- `Registry.ensure_meta`.  The hit branch increments the private
frequency and upgrades the display text when the new surface form is
non-empty and no shorter.  The miss branch constructs
`MetaEntry(meta_id=…, text=…, normalized_text=…, global_freq=…,
private_freq=1.0, category_vector=…)`: the `MetaEntry` dataclass does NOT
declare a `normalized_text` field, so Python raises `TypeError` (after
evaluating the arguments, including `vp text` and the id counter); the
exception propagates to the caller, so the post-raise counter state is
unobservable. -/
def ensure_meta (st : SystemState) (text : String)
    (global_freq : ℝ) (normalized_text : Option String) :
    Except PyError (MetaEntry × SystemState) :=
  let normalized_key :=
    match normalized_text with
    | some s => if s = "" then normalize_text text else s
    | none => normalize_text text
  match PyDict.get st.store.meta_table normalized_key with
  | some meta =>
    let meta2 := { meta with
      private_freq := meta.private_freq + 1
      text := if text ≠ "" ∧ meta.text.length ≤ text.length then text else meta.text }
    Except.ok (meta2,
      { st with store := { st.store with
          meta_table := PyDict.set st.store.meta_table normalized_key meta2 } })
  | none => Except.error PyError.typeError

/-- `Registry.create_instance`. -/
def create_instance (config : MemoryConfig) (jit : ℕ → ℝ → List ℝ)
    (st : SystemState) (meta : MetaEntry) (base_pos bias_vector : List ℝ)
    (jitter_scale : ℝ) : InstanceNode × SystemState :=
  let node_id := "node-" ++ toString st.node_counter
  let pos := vadd (vadd base_pos bias_vector) (jit config.vector_dim jitter_scale)
  let node : InstanceNode := { node_id := node_id, meta_id := meta.meta_id, vector_pos := pos }
  let store := { st.store with
    instance_table := PyDict.set st.store.instance_table node_id node
    meta_table := update_meta_by_id st.store.meta_table meta.meta_id
      (fun m => { m with instances :=
        if node_id ∈ m.instances then m.instances else m.instances ++ [node_id] }) }
  (node, { st with store := store, node_counter := st.node_counter + 1 })

end Registry

namespace MemorySystem

/-- `_private_typical_frequency`. -/
noncomputable def private_typical_frequency (config : MemoryConfig)
    (st : SystemState) : ℝ :=
  private_typical (st.store.meta_table.map (fun kv => kv.2.private_freq))
    config.frequency_private_typical_default

/-- `_crystallized_radius_multiplier`. -/
noncomputable def crystallized_radius_multiplier (config : MemoryConfig)
    (total_count : ℕ) : ℝ :=
  config.crystallize_radius_multiplier * (Real.logb 2 ((total_count : ℝ) + 1) + 1)

/-- `_dynamic_radius`. -/
noncomputable def dynamic_radius (config : MemoryConfig) (cal : FrequencyCalibration)
    (st : SystemState) (meta_text : String) : ℝ :=
  match PyDict.get st.store.meta_table (normalize_text meta_text) with
  | none => config.radius_ceiling
  | some meta =>
    let private_scale := private_typical_frequency config st
    let effective_freq := effective_frequency meta.global_freq meta.private_freq
      private_scale config.frequency_private_beta config.frequency_private_cap
      config.frequency_eps
    let radius := radius_from_frequency cal effective_freq
      config.frequency_hit_probability cal.avg_freq config.radius_floor
      config.radius_ceiling config.frequency_eps
    let radius := if 0 < meta.level then
        radius * crystallized_radius_multiplier config (max meta.crystallized_count 1)
      else radius
    min (max radius config.radius_floor) config.radius_ceiling

open Classical in
/-- The candidate loop of `_find_candidates`: missing instance ids raise
`KeyError`, matches within the radius are kept in iteration order. -/
noncomputable def find_candidates_go (st : SystemState) (center : List ℝ)
    (radius : ℝ) : List String → Except PyError (List (InstanceNode × ℝ))
  | [] => Except.ok []
  | nid :: rest =>
    match PyDict.get st.store.instance_table nid with
    | none => Except.error PyError.keyError
    | some node =>
      match find_candidates_go st center radius rest with
      | Except.error e => Except.error e
      | Except.ok tail =>
        let dist := vdist center node.vector_pos
        Except.ok (if dist ≤ radius then (node, dist) :: tail else tail)

/-- `_find_candidates`. -/
noncomputable def find_candidates (st : SystemState) (meta_text : String)
    (center : List ℝ) (radius : ℝ) : Except PyError (List (InstanceNode × ℝ)) :=
  match PyDict.get st.store.meta_table (normalize_text meta_text) with
  | none => Except.ok []
  | some meta => find_candidates_go st center radius meta.instances

/-- The sort key of `_select_best`: `(distance, -use_count)`,
lexicographically. -/
def candidate_before (a b : InstanceNode × ℝ) : Prop :=
  a.2 < b.2 ∨ (a.2 = b.2 ∧ b.1.stats.use_count < a.1.stats.use_count)

open Classical in
/-- `_select_best`: nearest candidate, ties by highest use count (stable
sort, first element). -/
noncomputable def select_best (candidates : List (InstanceNode × ℝ)) :
    Option InstanceNode :=
  match pySortBy candidate_before candidates with
  | [] => none
  | c :: _ => some c.1

/-- `_create_instance_near`. -/
noncomputable def create_instance_near (config : MemoryConfig)
    (vp : String → List ℝ) (jit : ℕ → ℝ → List ℝ) (st : SystemState)
    (meta_text : String) (center : List ℝ) (radius : ℝ) :
    Except PyError (InstanceNode × SystemState) :=
  match Registry.ensure_meta st meta_text 1 none with
  | Except.error e => Except.error e
  | Except.ok (meta, st1) =>
    let private_scale := private_typical_frequency config st1
    let effective_freq := effective_frequency meta.global_freq meta.private_freq
      private_scale config.frequency_private_beta config.frequency_private_cap
      config.frequency_eps
    let bias := vscale meta.category_vector (1 / max effective_freq 1)
    let jitter_scale := min radius config.jitter_scale
    Except.ok (Registry.create_instance config jit st1 meta center bias jitter_scale)

open Classical in
/-- `_ensure_instance` (the diagnostic `print` has no semantic effect). -/
noncomputable def ensure_instance (config : MemoryConfig) (vp : String → List ℝ)
    (jit : ℕ → ℝ → List ℝ) (cal : FrequencyCalibration) (st : SystemState)
    (meta_text : String) (center : List ℝ) :
    Except PyError (InstanceNode × SystemState) :=
  let radius := dynamic_radius config cal st meta_text
  match find_candidates st meta_text center radius with
  | Except.error e => Except.error e
  | Except.ok candidates =>
    match select_best candidates with
    | some chosen =>
      let chosen2 := { chosen with stats :=
        { chosen.stats with use_count := chosen.stats.use_count + 1 } }
      Except.ok (chosen2,
        { st with store := update_instance st.store chosen.node_id (fun _ => chosen2) })
    | none =>
      match create_instance_near config vp jit st meta_text center radius with
      | Except.error e => Except.error e
      | Except.ok (node, st2) =>
        let node2 := { node with stats :=
          { node.stats with use_count := node.stats.use_count + 1 } }
        Except.ok (node2,
          { st2 with store := update_instance st2.store node.node_id (fun _ => node2) })

/-- `_meta_text_from_id`. -/
def meta_text_from_id (store : InMemoryStore) (mid : String) : String :=
  match meta_from_id store mid with
  | none => mid
  | some meta => meta.text

/-- `_meta_level`. -/
def meta_level (store : InMemoryStore) (mid : String) : ℕ :=
  match meta_from_id store mid with
  | none => 0
  | some meta => meta.level

/-- `_crystallized_count` (an unparsable payload string falls back to the
meta's count, as the `except ValueError` branch does). -/
def crystallized_count_of (store : InMemoryStore) (node : InstanceNode) : ℕ :=
  match meta_from_id store node.meta_id with
  | none => 1
  | some meta =>
    match PyDict.get node.payload "crystallized_count" with
    | none => meta.crystallized_count
    | some sv =>
      match sv.toNat? with
      | some n => n
      | none => meta.crystallized_count

/-- `_maybe_crystallize`.  The two nodes are read from the table (they
are the caller's aliased objects); sequential refractory decrements model
the aliased double decrement when both ids coincide. -/
noncomputable def maybe_crystallize (config : MemoryConfig) (vp : String → List ℝ)
    (jit : ℕ → ℝ → List ℝ) (st : SystemState) (left_id right_id : String) :
    Except PyError SystemState :=
  match PyDict.get st.store.instance_table left_id,
        PyDict.get st.store.instance_table right_id with
  | some left, some right =>
    match st.store.graph.get_edge left_id right_id with
    | none => Except.ok st
    | some edge =>
      if 0 < left.stats.refractory ∨ 0 < right.stats.refractory then
        let dec := fun (nd : InstanceNode) =>
          { nd with stats := { nd.stats with refractory := nd.stats.refractory - 1 } }
        let st1 := { st with store := update_instance st.store left_id dec }
        let st2 := { st1 with store := update_instance st1.store right_id dec }
        Except.ok st2
      else
        let total_count := crystallized_count_of st.store left
          + crystallized_count_of st.store right
        let threshold := crystallize_threshold config total_count
        if edge.walk_count < threshold then Except.ok st
        else
          let left_meta := meta_text_from_id st.store left.meta_id
          let right_meta := meta_text_from_id st.store right.meta_id
          let crystallized_text := left_meta ++ right_meta
          match Registry.ensure_meta st crystallized_text 1 none with
          | Except.error e => Except.error e
          | Except.ok (cmeta0, st2) =>
            let cmeta1 := if cmeta0.crystallized_count = 1 then
                { cmeta0 with crystallized_count := total_count }
              else cmeta0
            let new_level := max cmeta1.level
              (max (meta_level st2.store left.meta_id + 1)
                   (meta_level st2.store right.meta_id + 1))
            let cmeta2 := { cmeta1 with level := new_level }
            let mt3 := update_meta_by_id st2.store.meta_table cmeta2.meta_id
              (fun _ => cmeta2)
            let st3 := { st2 with store := { st2.store with meta_table := mt3 } }
            let mean_pos := vmean [left.vector_pos, right.vector_pos]
            let offset := vscale (vnormalize mean_pos) config.crystallize_offset_scale
            let new_pos := vadd mean_pos offset
            match Registry.create_instance config jit st3 cmeta2 new_pos
                (zero_vector config.vector_dim) 0 with
            | (new_node0, st4) =>
              let payload2 := PyDict.set
                (PyDict.set new_node0.payload "source" crystallized_text)
                "crystallized_count" (toString total_count)
              let new_node := { new_node0 with payload := payload2 }
              let store5 := update_instance st4.store new_node.node_id (fun _ => new_node)
              let st5 := { st4 with store := store5 }
              let decrement := max 1 (threshold / 2)
              let g := st5.store.graph.downgrade_edge left_id right_id decrement
              let g := g.reset_edge left_id right_id 1
              let g := g.add_edge left_id new_node.node_id EdgeType.vertical
              let g := g.add_edge right_id new_node.node_id EdgeType.vertical
              let st6 := { st5 with store := { st5.store with graph := g } }
              let setr := fun (nd : InstanceNode) =>
                { nd with stats := { nd.stats with refractory := 1 } }
              let st7 := { st6 with store := update_instance st6.store left_id setr }
              let st8 := { st7 with store := update_instance st7.store right_id setr }
              Except.ok st8
  | _, _ => Except.error PyError.keyError

/-- The token loop of `write_sequence`.  The returned path list carries
each node as of its own step (the Python list holds aliased objects; the
table inside the returned state is authoritative). -/
noncomputable def write_loop (config : MemoryConfig) (vp : String → List ℝ)
    (jit : ℕ → ℝ → List ℝ) (cal : FrequencyCalibration) :
    List String → List InstanceNode → List ℝ → Option InstanceNode → SystemState →
    Except PyError (List InstanceNode × SystemState)
  | [], acc, _center, _prev, st => Except.ok (acc, st)
  | token :: rest, acc, center, prev, st =>
    match ensure_instance config vp jit cal st token center with
    | Except.error e => Except.error e
    | Except.ok (node, st1) =>
      match prev with
      | none =>
        write_loop config vp jit cal rest (acc ++ [node]) node.vector_pos (some node) st1
      | some prev_node =>
        let st2 := { st1 with store := { st1.store with
          graph := st1.store.graph.add_edge prev_node.node_id node.node_id
            EdgeType.horizontal } }
        let bump := fun (nd : InstanceNode) =>
          { nd with stats := { nd.stats with pass_count := nd.stats.pass_count + 1 } }
        let st3 := { st2 with store := update_instance st2.store prev_node.node_id bump }
        let st4 := { st3 with store := update_instance st3.store node.node_id bump }
        match maybe_crystallize config vp jit st4 prev_node.node_id node.node_id with
        | Except.error e => Except.error e
        | Except.ok st5 =>
          let node2 := (PyDict.get st5.store.instance_table node.node_id).getD node
          write_loop config vp jit cal rest (acc ++ [node2]) node.vector_pos
            (some node2) st5

/-- `write_sequence` (`_save_if_needed` is the persistence boundary and
leaves the in-memory state unchanged). -/
noncomputable def write_sequence (config : MemoryConfig) (vp : String → List ℝ)
    (jit : ℕ → ℝ → List ℝ) (cal : FrequencyCalibration) (st : SystemState)
    (tokens : List String) : Except PyError (List InstanceNode × SystemState) :=
  let tokens := tokens.filter (fun t => normalize_text t ≠ "")
  let tokens := prefer_longer_tokens st.store tokens
  write_loop config vp jit cal tokens [] (zero_vector config.vector_dim) none st

end MemorySystem

/-! ## `MemorySystem.__init__` versus `Registry.__init__` (claim C10) -/

/-- `Registry.__init__(self, store, config)`: exactly two positional
parameters besides `self`, no defaults and no varargs. -/
def Registry.init_param_count : ℕ := 2

/-- `MemorySystem.__init__` calls
`Registry(self.store, self.config, self.global_frequency)`: three
positional arguments. -/
def MemorySystem.init_registry_arg_count : ℕ := 3

/-- The `Registry(...)` call inside `MemorySystem.__init__` after the
store has been created/loaded and the frequency provider constructed: a
Python call binds iff the argument count matches the parameter count, and
otherwise raises `TypeError`.  (The preceding statements touch only the
storage and frequency collaborators.) -/
def MemorySystem.init_registry_call (loaded_store : InMemoryStore) :
    Except PyError SystemState :=
  if MemorySystem.init_registry_arg_count = Registry.init_param_count then
    Except.ok { store := loaded_store }
  else Except.error PyError.typeError

/-- Every source recorded in the session is itself a touched node. -/
def sources_ok (s : SessionState) : Prop :=
  ∀ kv ∈ s.hit_sources, ∀ src ∈ kv.2, touched s src

/-- Every identifier in a value list of `results` appears in some
recorded source list of the session. -/
def result_sources_recorded (s : SessionState) (results : List (String × List String)) : Prop :=
  ∀ kv ∈ results, ∀ i ∈ kv.2, ∃ kv2 ∈ s.hit_sources, i ∈ kv2.2

/-- A meta entry owning a single instance, for the retrieval fixtures.
(`noncomputable` only because `ℝ` numerals carry no compiled code; the
kernel still reduces it, and the retrieval path never reads these
fields.) -/
noncomputable def mkMeta (mid text2 inst : String) (labels : List String) : MetaEntry :=
  { meta_id := mid, text := text2, global_freq := 1, private_freq := 1,
    instances := [inst], labels := labels }

/-- Fixture for C8: a three-node horizontal chain `n1 - n2 - n3` of three
distinct unlabelled metas; the query resolves only `n1`. -/
noncomputable def c8_store : InMemoryStore :=
  { meta_table :=
      [("ka", mkMeta "mA" "A" "n1" []), ("kb", mkMeta "mB" "B" "n2" []),
       ("kc", mkMeta "mC" "C" "n3" [])]
    instance_table :=
      [("n1", mkNode "n1" "mA" 0), ("n2", mkNode "n2" "mB" 0), ("n3", mkNode "n3" "mC" 0)]
    graph :=
      { out_edges :=
          [("n1", [("n2", ⟨EdgeType.horizontal, 1⟩)]),
           ("n2", [("n3", ⟨EdgeType.horizontal, 1⟩)])]
        in_edges :=
          [("n2", [("n1", ⟨EdgeType.horizontal, 1⟩)]),
           ("n3", [("n2", ⟨EdgeType.horizontal, 1⟩)])] } }

noncomputable def c8_cfg : MemoryConfig := { retrieval_ttl := 2 }

/-- Fixture for C7: ten isolated instances, each owned by a distinct meta
carrying only the label `short_sentence`; a ten-token query resolves all
ten as seeds, so the diffusion touches exactly these ten instances. -/
noncomputable def c7_store : InMemoryStore :=
  { meta_table :=
      [("w1", mkMeta "m1" "w1" "n1" ["short_sentence"]),
       ("w2", mkMeta "m2" "w2" "n2" ["short_sentence"]),
       ("w3", mkMeta "m3" "w3" "n3" ["short_sentence"]),
       ("w4", mkMeta "m4" "w4" "n4" ["short_sentence"]),
       ("w5", mkMeta "m5" "w5" "n5" ["short_sentence"]),
       ("w6", mkMeta "m6" "w6" "n6" ["short_sentence"]),
       ("w7", mkMeta "m7" "w7" "n7" ["short_sentence"]),
       ("w8", mkMeta "m8" "w8" "n8" ["short_sentence"]),
       ("w9", mkMeta "m9" "w9" "n9" ["short_sentence"]),
       ("wx", mkMeta "mx" "wx" "nx" ["short_sentence"])]
    instance_table :=
      [("n1", mkNode "n1" "m1" 0), ("n2", mkNode "n2" "m2" 0), ("n3", mkNode "n3" "m3" 0),
       ("n4", mkNode "n4" "m4" 0), ("n5", mkNode "n5" "m5" 0), ("n6", mkNode "n6" "m6" 0),
       ("n7", mkNode "n7" "m7" 0), ("n8", mkNode "n8" "m8" 0), ("n9", mkNode "n9" "m9" 0),
       ("nx", mkNode "nx" "mx" 0)]
    graph := {} }

def c7_tokens : List String :=
  ["w1", "w2", "w3", "w4", "w5", "w6", "w7", "w8", "w9", "wx"]

/-- The meta owning each instance of the C7 fixture. -/
noncomputable def c7_mfn : String → MetaEntry := fun nid =>
  if nid = "n1" then mkMeta "m1" "w1" "n1" ["short_sentence"]
  else if nid = "n2" then mkMeta "m2" "w2" "n2" ["short_sentence"]
  else if nid = "n3" then mkMeta "m3" "w3" "n3" ["short_sentence"]
  else if nid = "n4" then mkMeta "m4" "w4" "n4" ["short_sentence"]
  else if nid = "n5" then mkMeta "m5" "w5" "n5" ["short_sentence"]
  else if nid = "n6" then mkMeta "m6" "w6" "n6" ["short_sentence"]
  else if nid = "n7" then mkMeta "m7" "w7" "n7" ["short_sentence"]
  else if nid = "n8" then mkMeta "m8" "w8" "n8" ["short_sentence"]
  else if nid = "n9" then mkMeta "m9" "w9" "n9" ["short_sentence"]
  else mkMeta "mx" "wx" "nx" ["short_sentence"]

/-- The session produced by the C7 fixture retrieval: ten isolated seeds,
each touched once by itself. -/
def c7_sess : SessionState :=
  { ttl_budget := 10
    light_count :=
      [("n1", 1), ("n2", 1), ("n3", 1), ("n4", 1), ("n5", 1),
       ("n6", 1), ("n7", 1), ("n8", 1), ("n9", 1), ("nx", 1)]
    hit_sources :=
      [("n1", ["n1"]), ("n2", ["n2"]), ("n3", ["n3"]), ("n4", ["n4"]), ("n5", ["n5"]),
       ("n6", ["n6"]), ("n7", ["n7"]), ("n8", ["n8"]), ("n9", ["n9"]), ("nx", ["nx"])] }

/-- The result entry contributed by a touched instance: its meta's
display text mapped to its recorded source list. -/
def c7_entry (sess : SessionState) (mfn : String → MetaEntry) (kv : String × ℕ) :
    String × List String :=
  ((mfn kv.1).text, (PyDict.get sess.hit_sources kv.1).getD [])

/-- The C7 scenario conditions for one touched instance: it resolves in
the instance table, its meta resolves by id and by normalized display
text (the registry invariant), and the meta carries exactly the label
`short_sentence`. -/
def c7elig (store : InMemoryStore) (mfn : String → MetaEntry) (nid : String) : Prop :=
  (∃ node, PyDict.get store.instance_table nid = some node
    ∧ MemorySystem.meta_from_id store node.meta_id = some (mfn nid))
  ∧ (mfn nid).labels = ["short_sentence"]
  ∧ PyDict.get store.meta_table (normalize_text ((mfn nid).text)) = some (mfn nid)

/-! ## Fixtures for the write-path claims (C1, C3, C4).
Concrete collaborators: the write-path control flow never inspects the
word vectors, and the injected randomness is the zero draw
(`random.uniform(-0.0, 0.0) = 0.0`, so `vector.jitter(dim, 0.0)` is the
zero vector). -/

def vp0 : String → List ℝ := fun _ => []

noncomputable def jit0 : ℕ → ℝ → List ℝ := fun dim _ => zero_vector dim

/-- The fallback calibration shape: empty quantile table (distance scale
1), unit average frequency. -/
noncomputable def cal0 : FrequencyCalibration := ⟨[], 1, 1⟩

/-- Fixture for C3: a registry holding the single normalized key `上`. -/
noncomputable def c3_meta : MetaEntry :=
  { meta_id := "meta-1", text := "上", global_freq := 1, private_freq := 1 }

noncomputable def c3_state : SystemState :=
  { store := { meta_table := [("上", c3_meta)] }, meta_counter := 2 }

/-- The meta entry the hit branch of `ensure_meta` produces on
`c3_state` for the surface form `上！`: private frequency incremented,
display text upgraded to the longer punctuation-bearing form. -/
noncomputable def c3_meta2 : MetaEntry :=
  { c3_meta with private_freq := c3_meta.private_freq + 1, text := "上！" }

/-! ## Fixtures and scenario predicates for claim C4 -/

/-- The refractory decrement
`stats.refractory = max(0, stats.refractory - 1)` performed on both
endpoints by the guard branch of `_maybe_crystallize` (ℕ subtraction is
the `max(0, ·)` form). -/
def dec_refractory (nd : InstanceNode) : InstanceNode :=
  { nd with stats := { nd.stats with refractory := nd.stats.refractory - 1 } }

/-- The write-path scenario in which the two-token pair `t1, t2` resolves
to an already-registered merged meta with a reachable instance: both
tokens survive normalization, instance-table keys are the stored nodes'
ids (the registry invariant), the merged meta is registered with all its
instance ids resolvable, and at least one of its instances lies within
the dynamic radius of the merged text from the zero starting center. -/
def merged_scenario (config : MemoryConfig) (cal : FrequencyCalibration)
    (st : SystemState) (t1 t2 : String) : Prop :=
  normalize_text t1 ≠ "" ∧ normalize_text t2 ≠ ""
  ∧ (∀ nid nd, PyDict.get st.store.instance_table nid = some nd → nd.node_id = nid)
  ∧ ∃ cmeta, PyDict.get st.store.meta_table (normalize_text (t1 ++ t2)) = some cmeta
      ∧ (∀ nid ∈ cmeta.instances, (PyDict.get st.store.instance_table nid).isSome = true)
      ∧ ∃ nid nd, nid ∈ cmeta.instances
          ∧ PyDict.get st.store.instance_table nid = some nd
          ∧ vdist (zero_vector config.vector_dim) nd.vector_pos
              ≤ MemorySystem.dynamic_radius config cal st (t1 ++ t2)

/-- One-dimensional vectors keep the C4 fixtures small; every other
parameter is the default. -/
noncomputable def c4_cfg : MemoryConfig := { vector_dim := 1 }

noncomputable def c4_m1 : MetaEntry :=
  { meta_id := "meta-1", text := "上", global_freq := 1, private_freq := 1,
    instances := ["node-1"] }

noncomputable def c4_m2 : MetaEntry :=
  { meta_id := "meta-2", text := "山", global_freq := 1, private_freq := 1,
    instances := ["node-2"] }

noncomputable def c4_m3 : MetaEntry :=
  { meta_id := "meta-3", text := "上山", global_freq := 1, private_freq := 1 }

noncomputable def c4_n1 : InstanceNode :=
  { node_id := "node-1", meta_id := "meta-1", vector_pos := [0],
    stats := { use_count := 2, pass_count := 2 } }

noncomputable def c4_n2 : InstanceNode :=
  { node_id := "node-2", meta_id := "meta-2", vector_pos := [0],
    stats := { use_count := 2, pass_count := 2 } }

/-- C4 starting state: `上` and `山` each carry one instance at the
origin, the sequential edge `node-1 → node-2` has walk count 2 (two
registrations of the pair), both refractory counters are 0, and the
concatenated meta `上山` is already registered (a precondition for
`ensure_meta` not to raise in the crystallization branch). -/
noncomputable def c4_S0 : SystemState :=
  { store :=
      { meta_table := [("上", c4_m1), ("山", c4_m2), ("上山", c4_m3)]
        instance_table := [("node-1", c4_n1), ("node-2", c4_n2)]
        graph :=
          { out_edges := [("node-1", [("node-2", ⟨EdgeType.horizontal, 2⟩)])]
            in_edges := [("node-2", [("node-1", ⟨EdgeType.horizontal, 2⟩)])] } }
    meta_counter := 4
    node_counter := 3 }

/-- The position of the crystallized instance created from two instances
at the origin: mean of the endpoint positions, plus the centrifugal
offset, plus the zero bias and zero jitter of the crystallization call.
(Evaluates to `[0]`.) -/
noncomputable def c4_pos3 : List ℝ :=
  vadd (vadd (vadd (vmean [[0], [0]])
      (vscale (vnormalize (vmean [[0], [0]])) c4_cfg.crystallize_offset_scale))
    (zero_vector c4_cfg.vector_dim)) (jit0 c4_cfg.vector_dim 0)

/-- The crystallized meta after the C4 crystallization: private frequency
bumped by the `ensure_meta` hit, crystallized count assigned to 2, level
raised to 1, owning the new instance. -/
noncomputable def c4_m3c : MetaEntry :=
  { meta_id := "meta-3", text := "上山", global_freq := 1, private_freq := 1 + 1,
    level := 1, instances := ["node-3"], crystallized_count := 2 }

noncomputable def c4_n1r : InstanceNode :=
  { node_id := "node-1", meta_id := "meta-1", vector_pos := [0],
    stats := { use_count := 2, pass_count := 2, refractory := 1 } }

noncomputable def c4_n2r : InstanceNode :=
  { node_id := "node-2", meta_id := "meta-2", vector_pos := [0],
    stats := { use_count := 2, pass_count := 2, refractory := 1 } }

noncomputable def c4_n3 : InstanceNode :=
  { node_id := "node-3", meta_id := "meta-3", vector_pos := c4_pos3,
    payload := [("source", "上山"), ("crystallized_count", "2")] }

/-- The state `_maybe_crystallize` produces from `c4_S0`: the old edge
downgraded and reset to walk count 1, vertical edges to the new
`node-3`, and both endpoint refractory counters set to 1. -/
noncomputable def c4_S1 : SystemState :=
  { store :=
      { meta_table := [("上", c4_m1), ("山", c4_m2), ("上山", c4_m3c)]
        instance_table := [("node-1", c4_n1r), ("node-2", c4_n2r), ("node-3", c4_n3)]
        graph :=
          { out_edges :=
              [("node-1", [("node-2", ⟨EdgeType.horizontal, 1⟩),
                           ("node-3", ⟨EdgeType.vertical, 1⟩)]),
               ("node-3", []),
               ("node-2", [("node-3", ⟨EdgeType.vertical, 1⟩)])]
            in_edges :=
              [("node-2", [("node-1", ⟨EdgeType.horizontal, 1⟩)]),
               ("node-1", []),
               ("node-3", [("node-1", ⟨EdgeType.vertical, 1⟩),
                           ("node-2", ⟨EdgeType.vertical, 1⟩)])] } }
    meta_counter := 4
    node_counter := 4 }

end CrystallineHighway

namespace CrystallineHighway

/-! ## Dictionary, session and graph lemmas -/

theorem PyDict.get_set {κ α : Type} [DecidableEq κ] (l : List (κ × α)) (k k2 : κ) (v : α) :
    PyDict.get (PyDict.set l k v) k2 = if k = k2 then some v else PyDict.get l k2 := by
  induction l with
  | nil => simp [PyDict.get, PyDict.set]
  | cons h t ih =>
    obtain ⟨k1, v1⟩ := h
    by_cases h1 : k1 = k
    · subst h1
      by_cases h2 : k1 = k2 <;> simp [PyDict.get, PyDict.set, h2]
    · by_cases h2 : k1 = k2
      · subst h2
        have : ¬ k = k1 := fun hh => h1 hh.symm
        simp [PyDict.get, PyDict.set, h1, this]
      · simp [PyDict.get, PyDict.set, h1, h2, ih]

theorem PyDict.get_mem {κ α : Type} [DecidableEq κ] {l : List (κ × α)} {k : κ} {v : α}
    (h : PyDict.get l k = some v) : (k, v) ∈ l := by
  induction l with
  | nil => simp [PyDict.get] at h
  | cons hd t ih =>
    obtain ⟨k1, v1⟩ := hd
    by_cases h1 : k1 = k
    · subst h1
      simp [PyDict.get] at h
      simp [h]
    · simp [PyDict.get, h1] at h
      exact List.mem_cons_of_mem _ (ih h)

theorem PyDict.mem_setdefault {κ α : Type} [DecidableEq κ] {l : List (κ × α)} {k : κ} {v : α}
    {x : κ × α} (h : x ∈ PyDict.setdefault l k v) : x ∈ l ∨ x = (k, v) := by
  unfold PyDict.setdefault at h
  split at h
  · exact Or.inl h
  · rcases List.mem_append.mp h with h2 | h2
    · exact Or.inl h2
    · simp at h2
      exact Or.inr h2

theorem touched_touch (s : SessionState) (a b n : String) :
    touched (s.touch a b) n ↔ n = a ∨ touched s n := by
  by_cases h : a = n
  · subst h
    simp [touched, SessionState.touch, PyDict.get_set]
  · have h2 : ¬ n = a := fun hh => h hh.symm
    simp [touched, SessionState.touch, PyDict.get_set, h, h2]

theorem touched_touch_fold (cid : String) (l : List (String × EdgeData))
    (s : SessionState) (n : String) :
    touched (l.foldl (fun acc p => acc.touch p.1 cid) s) n
      ↔ touched s n ∨ n ∈ l.map (fun p => p.1) := by
  induction l generalizing s with
  | nil => simp
  | cons h t ih =>
    simp only [List.foldl_cons, ih, touched_touch, List.map_cons, List.mem_cons]
    tauto

theorem touched_seed_fold (seeds : List String) (s : SessionState) (n : String) :
    touched (seeds.foldl (fun s x => s.touch x x) s) n ↔ touched s n ∨ n ∈ seeds := by
  induction seeds generalizing s with
  | nil => simp
  | cons h t ih =>
    simp only [List.foldl_cons, ih, touched_touch, List.mem_cons]
    tauto

theorem mem_foldl_setdefault (l : List (String × EdgeData)) (acc : List (String × EdgeData))
    {x : String × EdgeData}
    (h : x ∈ l.foldl (fun acc p =>
      if p.2.edge_type = EdgeType.horizontal then PyDict.setdefault acc p.1 p.2 else acc) acc) :
    x ∈ acc ∨ x ∈ l := by
  induction l generalizing acc with
  | nil => simp at h; exact Or.inl h
  | cons hd t ih =>
    simp only [List.foldl_cons] at h
    rcases ih _ h with h2 | h2
    · split at h2
      · rcases PyDict.mem_setdefault h2 with h3 | h3
        · exact Or.inl h3
        · exact Or.inr (by simp [h3])
      · exact Or.inl h2
    · exact Or.inr (List.mem_cons_of_mem _ h2)

theorem mem_neighbors {g : Graph} {cid : String} {p : String × EdgeData}
    (h : p ∈ g.neighbors cid true) :
    p ∈ (PyDict.get g.out_edges cid).getD [] ∨ p ∈ (PyDict.get g.in_edges cid).getD [] := by
  unfold Graph.neighbors at h
  simp only [if_pos] at h
  exact mem_foldl_setdefault _ _ h

theorem neighbors_wf {store : InMemoryStore} (hwf : graph_ids_present store)
    {cid : String} {p : String × EdgeData} (h : p ∈ store.graph.neighbors cid true) :
    (PyDict.get store.instance_table p.1).isSome = true := by
  rcases mem_neighbors h with h2 | h2
  · cases hout : PyDict.get store.graph.out_edges cid with
    | none => rw [hout] at h2; simp at h2
    | some adj =>
      rw [hout] at h2
      exact hwf.1 (cid, adj) (PyDict.get_mem hout) p h2
  · cases hin : PyDict.get store.graph.in_edges cid with
    | none => rw [hin] at h2; simp at h2
    | some adj =>
      rw [hin] at h2
      exact hwf.2 (cid, adj) (PyDict.get_mem hin) p h2

theorem length_foldl_setdefault (l : List (String × EdgeData)) (acc : List (String × EdgeData)) :
    (l.foldl (fun acc p =>
      if p.2.edge_type = EdgeType.horizontal then PyDict.setdefault acc p.1 p.2 else acc) acc).length
      ≤ acc.length + l.length := by
  induction l generalizing acc with
  | nil => simp
  | cons hd t ih =>
    simp only [List.foldl_cons, List.length_cons]
    refine le_trans (ih _) ?_
    have hsd : (if hd.2.edge_type = EdgeType.horizontal
        then PyDict.setdefault acc hd.1 hd.2 else acc).length ≤ acc.length + 1 := by
      split
      · unfold PyDict.setdefault
        split
        · omega
        · simp
      · omega
    omega

theorem mem_map_length_sum {α : Type} {l : List (String × List α)} {kv : String × List α}
    (h : kv ∈ l) : kv.2.length ≤ (l.map (fun x => x.2.length)).sum := by
  induction l with
  | nil => simp at h
  | cons hd t ih =>
    rcases List.mem_cons.mp h with rfl | h2
    · simp
    · simp only [List.map_cons, List.sum_cons]
      exact le_trans (ih h2) (by omega)

theorem neighbors_length_le (g : Graph) (cid : String) :
    (g.neighbors cid true).length ≤ g.adj_size := by
  have hbase : ((PyDict.get g.out_edges cid).getD []).length
      ≤ (g.out_edges.map (fun kv => kv.2.length)).sum := by
    cases hout : PyDict.get g.out_edges cid with
    | none => simp
    | some adj => simpa using mem_map_length_sum (PyDict.get_mem hout)
  have hin : ((PyDict.get g.in_edges cid).getD []).length
      ≤ (g.in_edges.map (fun kv => kv.2.length)).sum := by
    cases hi : PyDict.get g.in_edges cid with
    | none => simp
    | some adj => simpa using mem_map_length_sum (PyDict.get_mem hi)
  unfold Graph.neighbors Graph.adj_size
  simp only [if_pos]
  refine le_trans (length_foldl_setdefault _ _) ?_
  omega

theorem mem_reach_self (g : Graph) (k : ℕ) (n : String) : n ∈ reach g k n := by
  cases k <;> simp [reach]

theorem reach_succ_iff (g : Graph) (k : ℕ) (n m : String) :
    m ∈ reach g (k + 1) n ↔ m = n ∨ ∃ p ∈ g.neighbors n true, m ∈ reach g k p.1 := by
  simp [reach]

theorem reach_mono (g : Graph) {k : ℕ} {n m : String}
    (h : m ∈ reach g k n) : m ∈ reach g (k + 1) n := by
  induction k generalizing n with
  | zero => simp [reach] at h; simp [reach, h]
  | succ k ih =>
    rcases (reach_succ_iff g k n m).mp h with rfl | ⟨p, hp, h2⟩
    · exact mem_reach_self _ _ _
    · exact (reach_succ_iff g (k + 1) n m).mpr (Or.inr ⟨p, hp, ih h2⟩)

theorem sum_map_const {α : Type} (l : List α) (c : ℕ) :
    (l.map (fun _ => c)).sum = l.length * c := by
  induction l with
  | nil => simp
  | cons h t ih => simp [ih, Nat.succ_mul, Nat.add_comm]

theorem natTtl_natCast (k : ℕ) : natTtl ((k : ℚ)) = k := by
  simp [natTtl]

/-- Under zero hub penalties, a nonnegative penalty cap and a TTL of at
least 1, the neighbour loop touches every neighbour (with the expanded
node as source) and enqueues every neighbour with TTL one less. -/
theorem expand_neighbors_spec (store : InMemoryStore) (cfg : MemoryConfig)
    (hpen : ∀ kv ∈ store.instance_table, kv.2.hub_penalty = 0)
    (hcap : 0 ≤ cfg.hub_penalty_cap)
    (cid : String) (t : ℚ) (ht : 1 ≤ t)
    (nbrs : List (String × EdgeData))
    (hn : ∀ p ∈ nbrs, (PyDict.get store.instance_table p.1).isSome = true)
    (sess : SessionState) :
    MemorySystem.expand_neighbors store cfg cid t nbrs sess
      = some (nbrs.foldl (fun s p => s.touch p.1 cid) sess,
              nbrs.map (fun p => (p.1, t - 1))) := by
  unfold MemorySystem.expand_neighbors
  suffices haux : ∀ (l : List (String × EdgeData)), (∀ p ∈ l, (PyDict.get store.instance_table p.1).isSome = true) →
      ∀ (s : SessionState) (entries : List (String × ℚ)),
      l.foldl
        (fun acc p =>
          match acc with
          | none => none
          | some (sess, entries) =>
            match PyDict.get store.instance_table p.1 with
            | none => none
            | some neighbor_node =>
              let penalty := min neighbor_node.hub_penalty cfg.hub_penalty_cap
              let next_ttl := t - 1 - penalty
              if next_ttl < 0 then some (sess, entries)
              else some (sess.touch p.1 cid, entries ++ [(p.1, next_ttl)]))
        (some (s, entries))
      = some (l.foldl (fun s p => s.touch p.1 cid) s,
              entries ++ l.map (fun p => (p.1, t - 1))) by
    simpa using haux nbrs hn sess []
  intro l hl
  induction l with
  | nil => intro s entries; simp
  | cons hd tl ih =>
    intro s entries
    have hhd : (PyDict.get store.instance_table hd.1).isSome = true := hl hd (by simp)
    obtain ⟨nb, hnb⟩ := Option.isSome_iff_exists.mp hhd
    have hnb0 : nb.hub_penalty = 0 := hpen (hd.1, nb) (PyDict.get_mem hnb)
    have hmin : min nb.hub_penalty cfg.hub_penalty_cap = 0 := by
      rw [hnb0]
      exact min_eq_left hcap
    have hnext : ¬ (t - 1 - (0 : ℚ) < 0) := by
      push_neg
      linarith
    simp only [List.foldl_cons, hnb, hmin]
    rw [if_neg hnext]
    refine Eq.trans (ih (fun p hp => hl p (List.mem_cons_of_mem _ hp))
      (s.touch hd.1 cid) (entries ++ [(hd.1, t - 1 - 0)])) ?_
    simp

/-- Master invariant of the diffusion loop: on a completed run started
from an integral frontier whose entries are present in the instance table
and already touched, the touched set is exactly the initial touched set
together with the TTL-bounded reachability balls of the frontier
entries. -/
theorem diffuse_touched_iff (store : InMemoryStore) (cfg : MemoryConfig)
    (hwf : graph_ids_present store)
    (hpen : ∀ kv ∈ store.instance_table, kv.2.hub_penalty = 0)
    (hcap : 0 ≤ cfg.hub_penalty_cap) :
    ∀ (fuel : ℕ) (frontier : List (String × ℚ)) (sess s2 : SessionState),
    (∀ e ∈ frontier, ∃ k : ℕ, e.2 = (k : ℚ)) →
    (∀ e ∈ frontier, (PyDict.get store.instance_table e.1).isSome = true) →
    (∀ e ∈ frontier, touched sess e.1) →
    MemorySystem.diffuse store cfg fuel frontier sess = some s2 →
    ∀ n, touched s2 n ↔
      (touched sess n ∨ ∃ e ∈ frontier, n ∈ reach store.graph (natTtl e.2) e.1) := by
  intro fuel
  induction fuel with
  | zero =>
    intro frontier sess s2 hint htbl htch heq n
    cases frontier with
    | nil =>
      simp only [MemorySystem.diffuse, Option.some.injEq] at heq
      subst heq
      simp
    | cons e rest => simp [MemorySystem.diffuse] at heq
  | succ fuel ih =>
    intro frontier sess s2 hint htbl htch heq n
    cases frontier with
    | nil =>
      simp only [MemorySystem.diffuse, Option.some.injEq] at heq
      subst heq
      simp
    | cons e rest =>
      obtain ⟨cid, t⟩ := e
      obtain ⟨k, hk⟩ := hint (cid, t) (by simp)
      simp only at hk
      by_cases ht : t ≤ 0
      · have hk0 : k = 0 := by
          have : ((k : ℚ)) ≤ 0 := hk ▸ ht
          exact_mod_cast le_antisymm (by exact_mod_cast this) (Nat.zero_le k)
        simp only [MemorySystem.diffuse, if_pos ht] at heq
        have hiter := ih rest sess s2
          (fun e2 he2 => hint e2 (List.mem_cons_of_mem _ he2))
          (fun e2 he2 => htbl e2 (List.mem_cons_of_mem _ he2))
          (fun e2 he2 => htch e2 (List.mem_cons_of_mem _ he2)) heq n
        rw [hiter]
        have hcidtch : touched sess cid := htch (cid, t) (by simp)
        have hr0 : reach store.graph (natTtl t) cid = [cid] := by
          rw [hk, hk0]
          simp [natTtl_natCast, reach]
        constructor
        · rintro (h2 | ⟨e2, he2, h3⟩)
          · exact Or.inl h2
          · exact Or.inr ⟨e2, List.mem_cons_of_mem _ he2, h3⟩
        · rintro (h2 | ⟨e2, he2, h3⟩)
          · exact Or.inl h2
          · rcases List.mem_cons.mp he2 with rfl | he3
            · rw [hr0] at h3
              simp at h3
              subst h3
              exact Or.inl hcidtch
            · exact Or.inr ⟨e2, he3, h3⟩
      · have hk1 : 1 ≤ k := by
          by_contra hcon
          push_neg at hcon
          interval_cases k
          · rw [hk] at ht
            simp at ht
        have ht1 : 1 ≤ t := by
          rw [hk]
          exact_mod_cast hk1
        have hcid : (PyDict.get store.instance_table cid).isSome = true :=
          htbl (cid, t) (by simp)
        obtain ⟨node, hnode⟩ := Option.isSome_iff_exists.mp hcid
        have hnbrs : ∀ p ∈ store.graph.neighbors cid true,
            (PyDict.get store.instance_table p.1).isSome = true :=
          fun p hp => neighbors_wf hwf hp
        simp only [MemorySystem.diffuse, if_neg ht, hnode,
          expand_neighbors_spec store cfg hpen hcap cid t ht1 _ hnbrs sess] at heq
        set nbrs := store.graph.neighbors cid true with hnbrsdef
        set sess2 := nbrs.foldl (fun s p => s.touch p.1 cid) sess with hsess2
        have hiter := ih (rest ++ nbrs.map (fun p => (p.1, t - 1))) sess2 s2 ?_ ?_ ?_ heq n
        · rw [hiter]
          have hDN : n ∈ nbrs.map (fun p => p.1) →
              ∃ p ∈ nbrs, n ∈ reach store.graph (k - 1) p.1 := by
            intro hd
            obtain ⟨p, hp, hpn⟩ := List.mem_map.mp hd
            exact ⟨p, hp, hpn ▸ mem_reach_self _ _ _⟩
          have hCA : n = cid → touched sess n := by
            intro hcn
            rw [hcn]
            exact htch (cid, t) (by simp)
          have hsesstch : ∀ m, touched sess2 m ↔ touched sess m ∨ m ∈ nbrs.map (fun p => p.1) :=
            fun m => touched_touch_fold cid nbrs sess m
          have hreachk : ∀ m, m ∈ reach store.graph (natTtl t) cid ↔
              (m = cid ∨ ∃ p ∈ nbrs, m ∈ reach store.graph (k - 1) p.1) := by
            intro m
            rw [hk, natTtl_natCast]
            have hksucc : k = (k - 1) + 1 := by omega
            rw [hksucc]
            exact reach_succ_iff store.graph (k - 1) cid m
          have happ : (∃ e2 ∈ rest ++ nbrs.map (fun p => (p.1, t - 1)),
                n ∈ reach store.graph (natTtl e2.2) e2.1)
              ↔ ((∃ e2 ∈ rest, n ∈ reach store.graph (natTtl e2.2) e2.1)
                 ∨ ∃ p ∈ nbrs, n ∈ reach store.graph (k - 1) p.1) := by
            constructor
            · rintro ⟨e2, he2, h3⟩
              rcases List.mem_append.mp he2 with h4 | h4
              · exact Or.inl ⟨e2, h4, h3⟩
              · obtain ⟨p, hp, hpe⟩ := List.mem_map.mp h4
                refine Or.inr ⟨p, hp, ?_⟩
                have he21 : e2.1 = p.1 := by rw [← hpe]
                have he22 : e2.2 = t - 1 := by rw [← hpe]
                have : natTtl e2.2 = k - 1 := by
                  rw [he22, hk]
                  have : ((k : ℚ)) - 1 = ((k - 1 : ℕ) : ℚ) := by
                    push_cast [Nat.cast_sub hk1]
                    ring
                  rw [this, natTtl_natCast]
                rw [← this, ← he21]
                exact h3
            · rintro (⟨e2, he2, h3⟩ | ⟨p, hp, h3⟩)
              · exact ⟨e2, List.mem_append.mpr (Or.inl he2), h3⟩
              · refine ⟨(p.1, t - 1), List.mem_append.mpr (Or.inr (List.mem_map.mpr ⟨p, hp, rfl⟩)), ?_⟩
                have : natTtl (t - 1) = k - 1 := by
                  rw [hk]
                  have : ((k : ℚ)) - 1 = ((k - 1 : ℕ) : ℚ) := by
                    push_cast [Nat.cast_sub hk1]
                    ring
                  rw [this, natTtl_natCast]
                rw [this]
                exact h3
          rw [hsesstch, happ]
          constructor
          · rintro ((h2 | h2) | h2 | h2)
            · exact Or.inl h2
            · exact Or.inr ⟨(cid, t), by simp, (hreachk n).mpr (Or.inr (hDN h2))⟩
            · obtain ⟨e2, he2, h3⟩ := h2
              exact Or.inr ⟨e2, List.mem_cons_of_mem _ he2, h3⟩
            · exact Or.inr ⟨(cid, t), by simp, (hreachk n).mpr (Or.inr h2)⟩
          · rintro (h2 | ⟨e2, he2, h3⟩)
            · exact Or.inl (Or.inl h2)
            · rcases List.mem_cons.mp he2 with rfl | he3
              · rcases (hreachk n).mp h3 with h4 | h4
                · exact Or.inl (Or.inl (hCA h4))
                · exact Or.inr (Or.inr h4)
              · exact Or.inr (Or.inl ⟨e2, he3, h3⟩)
        · intro e2 he2
          rcases List.mem_append.mp he2 with h4 | h4
          · exact hint e2 (List.mem_cons_of_mem _ h4)
          · obtain ⟨p, hp, hpe⟩ := List.mem_map.mp h4
            refine ⟨k - 1, ?_⟩
            have he22 : e2.2 = t - 1 := by rw [← hpe]
            rw [he22, hk]
            push_cast [Nat.cast_sub hk1]
            ring
        · intro e2 he2
          rcases List.mem_append.mp he2 with h4 | h4
          · exact htbl e2 (List.mem_cons_of_mem _ h4)
          · obtain ⟨p, hp, hpe⟩ := List.mem_map.mp h4
            have he21 : e2.1 = p.1 := by rw [← hpe]
            rw [he21]
            exact hnbrs p hp
        · intro e2 he2
          rcases List.mem_append.mp he2 with h4 | h4
          · exact (touched_touch_fold cid nbrs sess e2.1).mpr
              (Or.inl (htch e2 (List.mem_cons_of_mem _ h4)))
          · obtain ⟨p, hp, hpe⟩ := List.mem_map.mp h4
            have he21 : e2.1 = p.1 := by rw [← hpe]
            exact (touched_touch_fold cid nbrs sess e2.1).mpr
              (Or.inr (List.mem_map.mpr ⟨p, hp, he21.symm⟩))

/-- The diffusion loop terminates: `frontier_measure` is a sufficient
fuel for any integral frontier whose ids resolve (zero penalties,
nonnegative cap). -/
theorem diffuse_terminates (store : InMemoryStore) (cfg : MemoryConfig)
    (hwf : graph_ids_present store)
    (hpen : ∀ kv ∈ store.instance_table, kv.2.hub_penalty = 0)
    (hcap : 0 ≤ cfg.hub_penalty_cap) :
    ∀ (fuel : ℕ) (frontier : List (String × ℚ)) (sess : SessionState),
    (∀ e ∈ frontier, ∃ k : ℕ, e.2 = (k : ℚ)) →
    (∀ e ∈ frontier, (PyDict.get store.instance_table e.1).isSome = true) →
    frontier_measure store.graph.adj_size frontier ≤ fuel →
    (MemorySystem.diffuse store cfg fuel frontier sess).isSome = true := by
  intro fuel
  induction fuel with
  | zero =>
    intro frontier sess hint htbl hm
    cases frontier with
    | nil => simp [MemorySystem.diffuse]
    | cons e rest =>
      exfalso
      have hpow : 1 ≤ (store.graph.adj_size + 1) ^ natTtl e.2 :=
        Nat.one_le_iff_ne_zero.mpr (pow_ne_zero _ (by omega))
      simp only [frontier_measure, List.map_cons, List.sum_cons] at hm
      omega
  | succ fuel ih =>
    intro frontier sess hint htbl hm
    cases frontier with
    | nil => simp [MemorySystem.diffuse]
    | cons e rest =>
      obtain ⟨cid, t⟩ := e
      obtain ⟨k, hk⟩ := hint (cid, t) (by simp)
      simp only at hk
      have hpow : 1 ≤ (store.graph.adj_size + 1) ^ natTtl t :=
        Nat.one_le_iff_ne_zero.mpr (pow_ne_zero _ (by omega))
      by_cases ht : t ≤ 0
      · simp only [MemorySystem.diffuse, if_pos ht]
        refine ih rest sess
          (fun e2 he2 => hint e2 (List.mem_cons_of_mem _ he2))
          (fun e2 he2 => htbl e2 (List.mem_cons_of_mem _ he2)) ?_
        simp only [frontier_measure, List.map_cons, List.sum_cons] at hm
        simp only [frontier_measure]
        omega
      · have hk1 : 1 ≤ k := by
          by_contra hcon
          push_neg at hcon
          interval_cases k
          · rw [hk] at ht
            simp at ht
        have ht1 : 1 ≤ t := by
          rw [hk]
          exact_mod_cast hk1
        have hcid : (PyDict.get store.instance_table cid).isSome = true :=
          htbl (cid, t) (by simp)
        obtain ⟨node, hnode⟩ := Option.isSome_iff_exists.mp hcid
        have hnbrs : ∀ p ∈ store.graph.neighbors cid true,
            (PyDict.get store.instance_table p.1).isSome = true :=
          fun p hp => neighbors_wf hwf hp
        simp only [MemorySystem.diffuse, if_neg ht, hnode,
          expand_neighbors_spec store cfg hpen hcap cid t ht1 _ hnbrs sess]
        set nbrs := store.graph.neighbors cid true with hnbrsdef
        set B := store.graph.adj_size with hBdef
        have htt1 : natTtl (t - 1) = k - 1 := by
          rw [hk]
          have : ((k : ℚ)) - 1 = ((k - 1 : ℕ) : ℚ) := by
            push_cast [Nat.cast_sub hk1]
            ring
          rw [this, natTtl_natCast]
        refine ih (rest ++ nbrs.map (fun p => (p.1, t - 1))) _ ?_ ?_ ?_
        · intro e2 he2
          rcases List.mem_append.mp he2 with h4 | h4
          · exact hint e2 (List.mem_cons_of_mem _ h4)
          · obtain ⟨p, hp, hpe⟩ := List.mem_map.mp h4
            refine ⟨k - 1, ?_⟩
            have he22 : e2.2 = t - 1 := by rw [← hpe]
            rw [he22, hk]
            push_cast [Nat.cast_sub hk1]
            ring
        · intro e2 he2
          rcases List.mem_append.mp he2 with h4 | h4
          · exact htbl e2 (List.mem_cons_of_mem _ h4)
          · obtain ⟨p, hp, hpe⟩ := List.mem_map.mp h4
            have he21 : e2.1 = p.1 := by rw [← hpe]
            rw [he21]
            exact hnbrs p hp
        · have hmap : frontier_measure B (nbrs.map (fun p => (p.1, t - 1)))
              = nbrs.length * (B + 1) ^ (k - 1) := by
            unfold frontier_measure
            rw [List.map_map]
            have : ((fun e => (B + 1) ^ natTtl e.2) ∘ (fun p : String × EdgeData => (p.1, t - 1)))
                = fun _ => (B + 1) ^ (k - 1) := by
              funext p
              simp [htt1]
            rw [this, sum_map_const]
          have happ : frontier_measure B (rest ++ nbrs.map (fun p => (p.1, t - 1)))
              = frontier_measure B rest + nbrs.length * (B + 1) ^ (k - 1) := by
            unfold frontier_measure
            rw [List.map_append, List.sum_append]
            unfold frontier_measure at hmap
            omega
          have hcons : frontier_measure B ((cid, t) :: rest)
              = (B + 1) ^ k + frontier_measure B rest := by
            simp only [frontier_measure, List.map_cons, List.sum_cons]
            rw [hk, natTtl_natCast]
          rw [happ]
          rw [hcons] at hm
          have hlen : nbrs.length ≤ B := neighbors_length_le store.graph cid
          have hx1 : 1 ≤ (B + 1) ^ (k - 1) :=
            Nat.one_le_iff_ne_zero.mpr (pow_ne_zero _ (by omega))
          have hsplit : (B + 1) ^ k = (B + 1) ^ (k - 1) * B + (B + 1) ^ (k - 1) := by
            have hk2 : k = (k - 1) + 1 := by omega
            calc (B + 1) ^ k = (B + 1) ^ ((k - 1) + 1) := by rw [← hk2]
              _ = (B + 1) ^ (k - 1) * (B + 1) := pow_succ _ _
              _ = (B + 1) ^ (k - 1) * B + (B + 1) ^ (k - 1) := Nat.mul_succ _ _
          have hlenx : nbrs.length * (B + 1) ^ (k - 1) ≤ B * (B + 1) ^ (k - 1) :=
            Nat.mul_le_mul_right _ hlen
          have hcomm : B * (B + 1) ^ (k - 1) = (B + 1) ^ (k - 1) * B := Nat.mul_comm _ _
          omega

/-! ## Claim C5: TTL-4 diffusion reaches exactly the radius-4 ball -/

/-- C5. For every store whose graph adjacency resolves in the instance
table, every seed set present in the table, TTL budget 4
(`retrieval_ttl = 4`), all hub penalties zero and a nonnegative penalty
cap: the diffusion loop terminates for sufficient fuel, and every
completed run touches an instance iff its shortest traversable distance
from some seed is at most 4 hops (hence no instance at distance 5 or
more is touched). -/
theorem C5_diffusion_touches_exactly_ball4 (store : InMemoryStore) (cfg : MemoryConfig)
    (seeds : List String)
    (httl : cfg.retrieval_ttl = 4)
    (hpen : ∀ kv ∈ store.instance_table, kv.2.hub_penalty = 0)
    (hcap : 0 ≤ cfg.hub_penalty_cap)
    (hwf : graph_ids_present store)
    (hseeds : ∀ s ∈ seeds, (PyDict.get store.instance_table s).isSome = true) :
    (∃ fuel sess, MemorySystem.diffuse store cfg fuel
        (MemorySystem.seed_frontier cfg seeds) (MemorySystem.seed_session cfg seeds)
        = some sess)
    ∧ ∀ (fuel : ℕ) (sess : SessionState),
        MemorySystem.diffuse store cfg fuel
          (MemorySystem.seed_frontier cfg seeds) (MemorySystem.seed_session cfg seeds)
          = some sess →
        ∀ n, touched sess n ↔ ∃ s ∈ seeds, within_hops store.graph 4 s n := by
  have hint : ∀ e ∈ MemorySystem.seed_frontier cfg seeds, ∃ k : ℕ, e.2 = (k : ℚ) := by
    intro e he
    obtain ⟨s, hs, hse⟩ := List.mem_map.mp he
    refine ⟨4, ?_⟩
    have : e.2 = cfg.retrieval_ttl := by rw [← hse]
    rw [this, httl]
    norm_num
  have htbl : ∀ e ∈ MemorySystem.seed_frontier cfg seeds,
      (PyDict.get store.instance_table e.1).isSome = true := by
    intro e he
    obtain ⟨s, hs, hse⟩ := List.mem_map.mp he
    have : e.1 = s := by rw [← hse]
    rw [this]
    exact hseeds s hs
  have hbase : ∀ n, ¬ touched { ttl_budget := cfg.retrieval_ttl } n := by
    intro n
    simp [touched, PyDict.get]
  have hseedtch : ∀ n, touched (MemorySystem.seed_session cfg seeds) n ↔ n ∈ seeds := by
    intro n
    unfold MemorySystem.seed_session
    rw [touched_seed_fold]
    simp [hbase n]
  have htch : ∀ e ∈ MemorySystem.seed_frontier cfg seeds,
      touched (MemorySystem.seed_session cfg seeds) e.1 := by
    intro e he
    obtain ⟨s, hs, hse⟩ := List.mem_map.mp he
    have h1 : e.1 = s := by rw [← hse]
    rw [h1, hseedtch]
    exact hs
  constructor
  · refine ⟨frontier_measure store.graph.adj_size (MemorySystem.seed_frontier cfg seeds), ?_⟩
    have := diffuse_terminates store cfg hwf hpen hcap
      (frontier_measure store.graph.adj_size (MemorySystem.seed_frontier cfg seeds))
      (MemorySystem.seed_frontier cfg seeds) (MemorySystem.seed_session cfg seeds)
      hint htbl le_rfl
    exact Option.isSome_iff_exists.mp this
  · intro fuel sess heq n
    have hiter := diffuse_touched_iff store cfg hwf hpen hcap fuel
      (MemorySystem.seed_frontier cfg seeds) (MemorySystem.seed_session cfg seeds) sess
      hint htbl htch heq n
    rw [hiter, hseedtch]
    constructor
    · rintro (h2 | ⟨e, he, h3⟩)
      · exact ⟨n, h2, mem_reach_self _ _ _⟩
      · obtain ⟨s, hs, hse⟩ := List.mem_map.mp he
        refine ⟨s, hs, ?_⟩
        have h1 : e.1 = s := by rw [← hse]
        have h2 : e.2 = cfg.retrieval_ttl := by rw [← hse]
        have h4 : natTtl e.2 = 4 := by
          rw [h2, httl]
          have : (4 : ℚ) = ((4 : ℕ) : ℚ) := by norm_num
          rw [this, natTtl_natCast]
        unfold within_hops
        rw [← h4, ← h1]
        exact h3
    · rintro ⟨s, hs, hw⟩
      refine Or.inr ⟨(s, cfg.retrieval_ttl), List.mem_map.mpr ⟨s, hs, rfl⟩, ?_⟩
      have h4 : natTtl cfg.retrieval_ttl = 4 := by
        rw [httl]
        have : (4 : ℚ) = ((4 : ℕ) : ℚ) := by norm_num
        rw [this, natTtl_natCast]
      simpa [h4] using hw

/-- Witness for C5: the six-node chain with seed `a`, TTL 4, default cap.
All hypotheses are discharged by `decide` on the concrete fixture. -/
theorem C5_diffusion_touches_exactly_ball4_witness :
    (∃ fuel sess, MemorySystem.diffuse c5_store { retrieval_ttl := 4 } fuel
        (MemorySystem.seed_frontier { retrieval_ttl := 4 } ["a"])
        (MemorySystem.seed_session { retrieval_ttl := 4 } ["a"])
        = some sess)
    ∧ ∀ (fuel : ℕ) (sess : SessionState),
        MemorySystem.diffuse c5_store { retrieval_ttl := 4 } fuel
          (MemorySystem.seed_frontier { retrieval_ttl := 4 } ["a"])
          (MemorySystem.seed_session { retrieval_ttl := 4 } ["a"])
          = some sess →
        ∀ n, touched sess n ↔ ∃ s ∈ ["a"], within_hops c5_store.graph 4 s n :=
  C5_diffusion_touches_exactly_ball4 c5_store { retrieval_ttl := 4 } ["a"]
    rfl (by decide) (by decide) (by decide) (by decide)

/-! ## Claim C6: retrieval never mutates the registry or the graph -/

/-- C6. For every fuel, store, configuration and query, `retrieve`
returns the store it was given: no meta or instance is created, removed
or modified and no edge is added or recounted — every step of the
retrieval path only reads the store, and all mutation happens in the
per-call `SessionState`, which is not part of the returned value. -/
theorem C6_retrieve_preserves_store (fuel : ℕ) (store : InMemoryStore)
    (cfg : MemoryConfig) (query_tokens : List String) :
    (MemorySystem.retrieve fuel store cfg query_tokens).1 = store
    ∧ (MemorySystem.retrieve fuel store cfg query_tokens).1.meta_table = store.meta_table
    ∧ (MemorySystem.retrieve fuel store cfg query_tokens).1.instance_table = store.instance_table
    ∧ (MemorySystem.retrieve fuel store cfg query_tokens).1.graph = store.graph := by
  have h : (MemorySystem.retrieve fuel store cfg query_tokens).1 = store := by
    unfold MemorySystem.retrieve
    split
    · rfl
    · rfl
    · split
      · rfl
      · dsimp only
        split
        · rfl
        · rfl
  exact ⟨h, by rw [h], by rw [h], by rw [h]⟩

/-! ## Claim C8: recorded sources are predecessors, not necessarily seeds -/

/-- C8 counterexample: on the chain `n1 - n2 - n3` with TTL 2 and query
`["ka"]` (resolving the single seed `n1`), the returned mapping contains
the value list `["n1", "n2"]` for display text `"A"`, although the only
resolved seed identifier is `"n1"`: the recorded source `"n2"` is the
expanding predecessor node, not a seed. -/
theorem C8_counterexample_source_not_seed :
    (MemorySystem.retrieve 10 c8_store c8_cfg ["ka"]).2
      = some [("A", ["n1", "n2"]), ("B", ["n1"])]
    ∧ (MemorySystem.retrieve_seeds c8_store ["ka"]).map (fun l => l.map (fun nd => nd.node_id))
      = some ["n1"]
    ∧ ("n2" : String) ∉ (["n1"] : List String) := by
  refine ⟨by with_unfolding_all decide, by with_unfolding_all decide, by decide⟩

theorem PyDict.mem_set {κ α : Type} [DecidableEq κ] {l : List (κ × α)} {k : κ} {v : α}
    {x : κ × α} (h : x ∈ PyDict.set l k v) : x ∈ l ∨ x = (k, v) := by
  induction l with
  | nil => simp [PyDict.set] at h; exact Or.inr h
  | cons hd t ih =>
    obtain ⟨k1, v1⟩ := hd
    by_cases h1 : k1 = k
    · simp only [PyDict.set, if_pos h1] at h
      rcases List.mem_cons.mp h with rfl | h2
      · exact Or.inr rfl
      · exact Or.inl (List.mem_cons_of_mem _ h2)
    · simp only [PyDict.set, if_neg h1] at h
      rcases List.mem_cons.mp h with rfl | h2
      · exact Or.inl (by simp)
      · rcases ih h2 with h3 | h3
        · exact Or.inl (List.mem_cons_of_mem _ h3)
        · exact Or.inr h3

theorem touched_touch_mono {s : SessionState} {n : String} (a b : String)
    (h : touched s n) : touched (s.touch a b) n :=
  (touched_touch s a b n).mpr (Or.inr h)

theorem sources_ok_touch {s : SessionState} (a b : String)
    (hok : sources_ok s) (hb : touched s b ∨ b = a) : sources_ok (s.touch a b) := by
  intro kv hkv src hsrc
  have hmem : kv ∈ PyDict.set s.hit_sources a
      (((PyDict.get s.hit_sources a).getD []) ++ [b]) := hkv
  rcases PyDict.mem_set hmem with h2 | h2
  · exact touched_touch_mono a b (hok kv h2 src hsrc)
  · rw [h2] at hsrc
    simp only at hsrc
    rcases List.mem_append.mp hsrc with h3 | h3
    · cases hget : PyDict.get s.hit_sources a with
      | none => rw [hget] at h3; simp at h3
      | some l0 =>
        rw [hget] at h3
        simp only [Option.getD_some] at h3
        exact touched_touch_mono a b (hok (a, l0) (PyDict.get_mem hget) src h3)
    · simp only [List.mem_singleton] at h3
      rcases hb with h4 | h4
      · rw [h3]
        exact touched_touch_mono a b h4
      · rw [h3, h4]
        exact (touched_touch s a a a).mpr (Or.inl rfl)

theorem sources_ok_seed_fold (ids : List String) (s : SessionState)
    (h : sources_ok s) : sources_ok (ids.foldl (fun s x => s.touch x x) s) := by
  induction ids generalizing s with
  | nil => exact h
  | cons hd t ih =>
    simp only [List.foldl_cons]
    exact ih _ (sources_ok_touch hd hd h (Or.inr rfl))

/-- Properties of the neighbour loop needed for source tracking, with no
assumption on penalties: touched nodes persist, source lists stay within
the touched set, and every enqueued entry is touched. -/
theorem expand_neighbors_props (store : InMemoryStore) (cfg : MemoryConfig)
    (cid : String) (t : ℚ) :
    ∀ (nbrs : List (String × EdgeData)) (s : SessionState) (es : List (String × ℚ))
      (s2 : SessionState) (es2 : List (String × ℚ)),
    (nbrs.foldl
      (fun acc p =>
        match acc with
        | none => none
        | some (sess, entries) =>
          match PyDict.get store.instance_table p.1 with
          | none => none
          | some neighbor_node =>
            let penalty := min neighbor_node.hub_penalty cfg.hub_penalty_cap
            let next_ttl := t - 1 - penalty
            if next_ttl < 0 then some (sess, entries)
            else some (sess.touch p.1 cid, entries ++ [(p.1, next_ttl)]))
      (some (s, es))) = some (s2, es2) →
    (∀ x, touched s x → touched s2 x)
    ∧ (touched s cid → sources_ok s → sources_ok s2)
    ∧ (∀ e ∈ es2, e ∈ es ∨ touched s2 e.1) := by
  intro nbrs
  induction nbrs with
  | nil =>
    intro s es s2 es2 h
    simp only [List.foldl_nil, Option.some.injEq, Prod.mk.injEq] at h
    obtain ⟨h1, h2⟩ := h
    subst h1; subst h2
    exact ⟨fun x hx => hx, fun _ hok => hok, fun e he => Or.inl he⟩
  | cons hd tl ih =>
    intro s es s2 es2 h
    simp only [List.foldl_cons] at h
    cases hget : PyDict.get store.instance_table hd.1 with
    | none =>
      rw [hget] at h
      simp only at h
      exfalso
      have : ∀ (l : List (String × EdgeData)),
          (l.foldl (fun acc p =>
            match acc with
            | none => none
            | some (sess, entries) =>
              match PyDict.get store.instance_table p.1 with
              | none => none
              | some neighbor_node =>
                let penalty := min neighbor_node.hub_penalty cfg.hub_penalty_cap
                let next_ttl := t - 1 - penalty
                if next_ttl < 0 then some (sess, entries)
                else some (sess.touch p.1 cid, entries ++ [(p.1, next_ttl)]))
            (none : Option (SessionState × List (String × ℚ)))) = none := by
        intro l
        induction l with
        | nil => rfl
        | cons hd2 tl2 ih2 => simpa using ih2
      rw [this tl] at h
      exact Option.noConfusion h
    | some nb =>
      rw [hget] at h
      simp only at h
      by_cases hlt : t - 1 - min nb.hub_penalty cfg.hub_penalty_cap < 0
      · rw [if_pos hlt] at h
        exact ih s es s2 es2 h
      · rw [if_neg hlt] at h
        obtain ⟨hmono, hok, hent⟩ :=
          ih (s.touch hd.1 cid) (es ++ [(hd.1, t - 1 - min nb.hub_penalty cfg.hub_penalty_cap)])
            s2 es2 h
        refine ⟨fun x hx => hmono x (touched_touch_mono _ _ hx), ?_, ?_⟩
        · intro hcid hsok
          exact hok (touched_touch_mono _ _ hcid)
            (sources_ok_touch _ _ hsok (Or.inl hcid))
        · intro e he
          rcases hent e he with h2 | h2
          · rcases List.mem_append.mp h2 with h3 | h3
            · exact Or.inl h3
            · simp only [List.mem_singleton] at h3
              subst h3
              exact Or.inr (hmono _ ((touched_touch s hd.1 cid hd.1).mpr (Or.inl rfl)))
          · exact Or.inr h2

/-- On any completed diffusion run whose frontier ids are already
touched, touched nodes persist and the recorded sources stay within the
touched set — for arbitrary hub penalties. -/
theorem diffuse_sources_props (store : InMemoryStore) (cfg : MemoryConfig) :
    ∀ (fuel : ℕ) (frontier : List (String × ℚ)) (sess s2 : SessionState),
    (∀ e ∈ frontier, touched sess e.1) →
    MemorySystem.diffuse store cfg fuel frontier sess = some s2 →
    (∀ x, touched sess x → touched s2 x) ∧ (sources_ok sess → sources_ok s2) := by
  intro fuel
  induction fuel with
  | zero =>
    intro frontier sess s2 htch heq
    cases frontier with
    | nil =>
      simp only [MemorySystem.diffuse, Option.some.injEq] at heq
      subst heq
      exact ⟨fun x hx => hx, fun h => h⟩
    | cons e rest => simp [MemorySystem.diffuse] at heq
  | succ fuel ih =>
    intro frontier sess s2 htch heq
    cases frontier with
    | nil =>
      simp only [MemorySystem.diffuse, Option.some.injEq] at heq
      subst heq
      exact ⟨fun x hx => hx, fun h => h⟩
    | cons e rest =>
      obtain ⟨cid, t⟩ := e
      by_cases ht : t ≤ 0
      · simp only [MemorySystem.diffuse, if_pos ht] at heq
        exact ih rest sess s2 (fun e2 he2 => htch e2 (List.mem_cons_of_mem _ he2)) heq
      · simp only [MemorySystem.diffuse, if_neg ht] at heq
        cases hget : PyDict.get store.instance_table cid with
        | none => rw [hget] at heq; exact Option.noConfusion heq
        | some node =>
          rw [hget] at heq
          simp only at heq
          cases hexp : MemorySystem.expand_neighbors store cfg cid t
              (store.graph.neighbors cid true) sess with
          | none => rw [hexp] at heq; exact Option.noConfusion heq
          | some pr =>
            obtain ⟨sess2, entries⟩ := pr
            rw [hexp] at heq
            simp only at heq
            have hprops := expand_neighbors_props store cfg cid t
              (store.graph.neighbors cid true) sess [] sess2 entries hexp
            obtain ⟨hmono1, hok1, hent1⟩ := hprops
            have hcid : touched sess cid := htch (cid, t) (by simp)
            have htch2 : ∀ e2 ∈ rest ++ entries, touched sess2 e2.1 := by
              intro e2 he2
              rcases List.mem_append.mp he2 with h3 | h3
              · exact hmono1 _ (htch e2 (List.mem_cons_of_mem _ h3))
              · rcases hent1 e2 h3 with h4 | h4
                · simp at h4
                · exact h4
            obtain ⟨hmono2, hok2⟩ := ih (rest ++ entries) sess2 s2 htch2 heq
            exact ⟨fun x hx => hmono2 x (hmono1 x hx),
                   fun hok => hok2 (hok1 hcid hok)⟩

theorem recorded_set (sess : SessionState) (results : List (String × List String))
    (text nid : String) (h : result_sources_recorded sess results) :
    result_sources_recorded sess
      (PyDict.set results text ((PyDict.get sess.hit_sources nid).getD [])) := by
  intro kv hkv i hi
  rcases PyDict.mem_set hkv with h2 | h2
  · exact h kv h2 i hi
  · rw [h2] at hi
    simp only at hi
    cases hget : PyDict.get sess.hit_sources nid with
    | none => rw [hget] at hi; simp at hi
    | some srcs =>
      rw [hget] at hi
      simp only [Option.getD_some] at hi
      exact ⟨(nid, srcs), PyDict.get_mem hget, hi⟩

theorem add_by_label_sources (store : InMemoryStore) (sess : SessionState)
    (label : String) (quota : ℤ) :
    ∀ (ranked : List (String × ℕ)) (results : List (String × List String))
      (selected : List String) (res2 : List (String × List String)) (sel2 : List String),
    MemorySystem.add_by_label store sess label quota ranked (results, selected)
      = some (res2, sel2) →
    result_sources_recorded sess results →
    result_sources_recorded sess res2 := by
  intro ranked
  induction ranked with
  | nil =>
    intro results selected res2 sel2 heq hrec
    simp only [MemorySystem.add_by_label, Option.some.injEq, Prod.mk.injEq] at heq
    obtain ⟨h1, _⟩ := heq
    subst h1
    exact hrec
  | cons hd tl ih =>
    intro results selected res2 sel2 heq hrec
    obtain ⟨nid, cnt⟩ := hd
    simp only [MemorySystem.add_by_label] at heq
    by_cases hsel : selected.contains nid
    · rw [if_pos hsel] at heq
      exact ih results selected res2 sel2 heq hrec
    · rw [if_neg hsel] at heq
      cases hget : PyDict.get store.instance_table nid with
      | none => rw [hget] at heq; exact Option.noConfusion heq
      | some node =>
        rw [hget] at heq
        simp only at heq
        cases hmeta : MemorySystem.meta_from_id store node.meta_id with
        | none =>
          rw [hmeta] at heq
          exact ih results selected res2 sel2 heq hrec
        | some meta =>
          rw [hmeta] at heq
          simp only at heq
          by_cases hlab : label ∈ meta.labels
          · rw [if_pos hlab] at heq
            have hrec2 := recorded_set sess results meta.text nid hrec
            split at heq
            · simp only [Option.some.injEq, Prod.mk.injEq] at heq
              obtain ⟨h1, _⟩ := heq
              subst h1
              exact hrec2
            · exact ih _ _ res2 sel2 heq hrec2
          · rw [if_neg hlab] at heq
            exact ih results selected res2 sel2 heq hrec

theorem fill_possible_sources (store : InMemoryStore) (sess : SessionState) :
    ∀ (ranked : List (String × ℕ)) (quota : ℤ) (results : List (String × List String))
      (selected : List String) (res2 : List (String × List String)) (sel2 : List String),
    MemorySystem.fill_possible store sess quota ranked (results, selected)
      = some (res2, sel2) →
    result_sources_recorded sess results →
    result_sources_recorded sess res2 := by
  intro ranked
  induction ranked with
  | nil =>
    intro quota results selected res2 sel2 heq hrec
    simp only [MemorySystem.fill_possible, Option.some.injEq, Prod.mk.injEq] at heq
    obtain ⟨h1, _⟩ := heq
    subst h1
    exact hrec
  | cons hd tl ih =>
    intro quota results selected res2 sel2 heq hrec
    obtain ⟨nid, cnt⟩ := hd
    simp only [MemorySystem.fill_possible] at heq
    by_cases hsel : selected.contains nid
    · rw [if_pos hsel] at heq
      exact ih quota results selected res2 sel2 heq hrec
    · rw [if_neg hsel] at heq
      cases hget : PyDict.get store.instance_table nid with
      | none => rw [hget] at heq; exact Option.noConfusion heq
      | some node =>
        rw [hget] at heq
        simp only at heq
        cases hmeta : MemorySystem.meta_from_id store node.meta_id with
        | none =>
          rw [hmeta] at heq
          exact ih quota results selected res2 sel2 heq hrec
        | some meta =>
          rw [hmeta] at heq
          simp only at heq
          have hrec2 := recorded_set sess results meta.text nid hrec
          split at heq
          · simp only [Option.some.injEq, Prod.mk.injEq] at heq
            obtain ⟨h1, _⟩ := heq
            subst h1
            exact hrec2
          · exact ih _ _ _ res2 sel2 heq hrec2

theorem collect_sources (store : InMemoryStore) (cfg : MemoryConfig)
    (ranked : List (String × ℕ)) (sess : SessionState)
    (res : List (String × List String))
    (h : MemorySystem.collect_retrieval_results store cfg ranked sess = some res) :
    result_sources_recorded sess res := by
  unfold MemorySystem.collect_retrieval_results at h
  have hr0 : result_sources_recorded sess ([] : List (String × List String)) := by
    intro kv hkv
    simp at hkv
  cases h1 : MemorySystem.add_by_label store sess "short_sentence"
      cfg.retrieval_quota_short ranked ([], []) with
  | none => rw [h1] at h; exact Option.noConfusion h
  | some st1 =>
  rw [h1] at h
  simp only at h
  cases h2 : MemorySystem.add_by_label store sess "long_sentence"
      cfg.retrieval_quota_long ranked st1 with
  | none => rw [h2] at h; exact Option.noConfusion h
  | some st2 =>
  rw [h2] at h
  simp only at h
  cases h3 : MemorySystem.add_by_label store sess "paragraph"
      cfg.retrieval_quota_paragraph ranked st2 with
  | none => rw [h3] at h; exact Option.noConfusion h
  | some st3 =>
  rw [h3] at h
  simp only at h
  cases h4 : MemorySystem.add_by_label store sess "full_text"
      cfg.retrieval_quota_memory ranked st3 with
  | none => rw [h4] at h; exact Option.noConfusion h
  | some st4 =>
  rw [h4] at h
  simp only at h
  cases h5 : MemorySystem.fill_possible store sess cfg.retrieval_quota_possible
      ranked st4 with
  | none => rw [h5] at h; exact Option.noConfusion h
  | some st5 =>
  rw [h5] at h
  simp only [Option.some.injEq] at h
  subst h
  have hr1 := add_by_label_sources store sess "short_sentence" cfg.retrieval_quota_short
    ranked [] [] st1.1 st1.2 (by simpa using h1) hr0
  have hr2 := add_by_label_sources store sess "long_sentence" cfg.retrieval_quota_long
    ranked st1.1 st1.2 st2.1 st2.2 (by simpa using h2) hr1
  have hr3 := add_by_label_sources store sess "paragraph" cfg.retrieval_quota_paragraph
    ranked st2.1 st2.2 st3.1 st3.2 (by simpa using h3) hr2
  have hr4 := add_by_label_sources store sess "full_text" cfg.retrieval_quota_memory
    ranked st3.1 st3.2 st4.1 st4.2 (by simpa using h4) hr3
  exact fill_possible_sources store sess ranked cfg.retrieval_quota_possible
    st4.1 st4.2 st5.1 st5.2 (by simpa using h5) hr4

/-- C8 (amended). Every identifier in a value list of the returned
mapping is the identifier of an instance *touched during diffusion* (the
node from which the selected instance was touched: the seed itself for a
seed's initial touch, otherwise the expanding predecessor); it need not
be a seed identifier. -/
theorem C8_amended_result_sources_are_touched (fuel : ℕ) (store : InMemoryStore)
    (cfg : MemoryConfig) (query_tokens : List String)
    (res : List (String × List String))
    (hres : (MemorySystem.retrieve fuel store cfg query_tokens).2 = some res) :
    ∀ kv ∈ res, ∀ i ∈ kv.2,
      ∃ sess, MemorySystem.retrieve_session fuel store cfg query_tokens = some sess
        ∧ touched sess i := by
  intro kv hkv i hi
  unfold MemorySystem.retrieve at hres
  cases hseeds : MemorySystem.retrieve_seeds store query_tokens with
  | none => rw [hseeds] at hres; exact Option.noConfusion hres
  | some seed_nodes =>
    cases seed_nodes with
    | nil =>
      rw [hseeds] at hres
      simp only [Option.some.injEq] at hres
      subst hres
      simp at hkv
    | cons seed seeds =>
      rw [hseeds] at hres
      simp only at hres
      cases hsess : MemorySystem.retrieve_session fuel store cfg query_tokens with
      | none => rw [hsess] at hres; exact Option.noConfusion hres
      | some sess =>
        rw [hsess] at hres
        simp only at hres
        cases hcol : MemorySystem.collect_retrieval_results store cfg
            (sortDescBy (fun p => p.2) sess.light_count) sess with
        | none => rw [hcol] at hres; exact Option.noConfusion hres
        | some results =>
          rw [hcol] at hres
          simp only [Option.some.injEq] at hres
          subst hres
          refine ⟨sess, rfl, ?_⟩
          have hsok : sources_ok sess := by
            unfold MemorySystem.retrieve_session at hsess
            rw [hseeds] at hsess
            simp only at hsess
            set sn := seed :: seeds with hsn
            set session0 : SessionState := { ttl_budget := cfg.retrieval_ttl } with hs0
            have hfold : sn.foldl (fun s n => s.touch n.node_id n.node_id) session0
                = (sn.map (fun n => n.node_id)).foldl (fun s x => s.touch x x) session0 := by
              rw [List.foldl_map]
            have hbase_ok : sources_ok session0 := by
              intro kv2 hkv2
              simp [hs0] at hkv2
            have hinit_ok : sources_ok
                (sn.foldl (fun s n => s.touch n.node_id n.node_id) session0) := by
              rw [hfold]
              exact sources_ok_seed_fold _ _ hbase_ok
            have hbase_tch : ∀ m, ¬ touched session0 m := by
              intro m
              simp [hs0, touched, PyDict.get]
            have hinit_tch : ∀ e ∈ sn.map (fun n => (n.node_id, session0.ttl_budget)),
                touched (sn.foldl (fun s n => s.touch n.node_id n.node_id) session0) e.1 := by
              intro e he
              obtain ⟨nd, hnd, hnde⟩ := List.mem_map.mp he
              have h1 : e.1 = nd.node_id := by rw [← hnde]
              rw [hfold, h1]
              rw [touched_seed_fold]
              exact Or.inr (List.mem_map.mpr ⟨nd, hnd, rfl⟩)
            exact (diffuse_sources_props store cfg fuel _ _ sess hinit_tch hsess).2 hinit_ok
          have hrec := collect_sources store cfg
            (sortDescBy (fun p => p.2) sess.light_count) sess results hcol
          obtain ⟨kv2, hkv2, hikv2⟩ := hrec kv hkv i hi
          exact hsok kv2 hkv2 i hikv2

/-- Witness for C8 (amended) on the C8 fixture: the non-seed source
`"n2"` is indeed a touched instance of that run. -/
theorem C8_amended_result_sources_are_touched_witness :
    ∃ sess, MemorySystem.retrieve_session 10 c8_store c8_cfg ["ka"] = some sess
      ∧ touched sess "n2" :=
  C8_amended_result_sources_are_touched 10 c8_store c8_cfg ["ka"]
    [("A", ["n1", "n2"]), ("B", ["n1"])] (by with_unfolding_all decide)
    ("A", ["n1", "n2"]) (by decide) "n2" (by decide)

theorem PyDict.set_fresh {κ α : Type} [DecidableEq κ] {l : List (κ × α)} {k : κ} (v : α)
    (h : PyDict.get l k = none) : PyDict.set l k v = l ++ [(k, v)] := by
  induction l with
  | nil => simp [PyDict.set]
  | cons hd t ih =>
    obtain ⟨k1, v1⟩ := hd
    by_cases h1 : k1 = k
    · simp [PyDict.get, h1] at h
    · simp only [PyDict.get, if_neg h1] at h
      simp [PyDict.set, if_neg h1, ih h]

theorem PyDict.get_append_none {κ α : Type} [DecidableEq κ] {l1 : List (κ × α)}
    (l2 : List (κ × α)) {k : κ} (h : PyDict.get l1 k = none) :
    PyDict.get (l1 ++ l2) k = PyDict.get l2 k := by
  induction l1 with
  | nil => simp
  | cons hd t ih =>
    obtain ⟨k1, v1⟩ := hd
    by_cases h1 : k1 = k
    · simp [PyDict.get, h1] at h
    · simp only [PyDict.get, if_neg h1] at h
      simp [PyDict.get, if_neg h1, ih h]

theorem PyDict.get_eq_none {κ α : Type} [DecidableEq κ] {l : List (κ × α)} {k : κ}
    (h : ∀ kv ∈ l, kv.1 ≠ k) : PyDict.get l k = none := by
  induction l with
  | nil => rfl
  | cons hd t ih =>
    have h1 : hd.1 ≠ k := h hd (by simp)
    simp only [PyDict.get]
    rw [if_neg h1]
    exact ih (fun kv hkv => h kv (List.mem_cons_of_mem _ hkv))

theorem contains_true_of_mem {l : List String} {a : String} (h : a ∈ l) :
    l.contains a = true := by
  simp [h]

theorem contains_false_of_not_mem {l : List String} {a : String} (h : a ∉ l) :
    l.contains a = false := by
  simp [h]

theorem insertDescBy_perm {α : Type} (key : α → ℕ) (x : α) (l : List α) :
    (insertDescBy key x l).Perm (x :: l) := by
  induction l with
  | nil => simp [insertDescBy]
  | cons y ys ih =>
    simp only [insertDescBy]
    split
    · exact List.Perm.refl _
    · exact ((ih.cons y).trans (List.Perm.swap x y ys))

theorem sortDescBy_perm {α : Type} (key : α → ℕ) (l : List α) :
    (sortDescBy key l).Perm l := by
  have haux : ∀ (l : List α) (acc : List α),
      (l.foldl (fun a x => insertDescBy key x a) acc).Perm (acc ++ l) := by
    intro l
    induction l with
    | nil => intro acc; simp
    | cons hd tl ih =>
      intro acc
      simp only [List.foldl_cons]
      refine (ih (insertDescBy key hd acc)).trans ?_
      refine (List.Perm.append_right tl (insertDescBy_perm key hd acc)).trans ?_
      have : (hd :: acc) ++ tl = hd :: (acc ++ tl) := rfl
      rw [this]
      exact List.perm_middle.symm
  simpa using haux l []

/-- The short-sentence pass in the C7 scenario: with `m` more selections
needed to reach the quota and at least `m` eligible entries, it selects
exactly the first `m` entries of the ranking and stops. -/
theorem add_short_takes (store : InMemoryStore) (sess : SessionState)
    (mfn : String → MetaEntry) :
    ∀ (l : List (String × ℕ)) (m : ℕ) (results : List (String × List String))
      (selected : List String) (q : ℤ),
    (∀ kv ∈ l, c7elig store mfn kv.1) →
    (∀ kv ∈ l, kv.1 ∉ selected) →
    (∀ kv2 ∈ results, "short_sentence" ∈ MemorySystem.meta_labels store kv2.1) →
    (∀ kv ∈ l, PyDict.get results ((mfn kv.1).text) = none) →
    ((l.map (fun kv => (mfn kv.1).text)).Nodup) →
    ((l.map Prod.fst).Nodup) →
    ((results.length : ℤ) + m = q) →
    1 ≤ m → m ≤ l.length →
    MemorySystem.add_by_label store sess "short_sentence" q l (results, selected)
      = some (results ++ (l.take m).map (c7_entry sess mfn),
              selected ++ (l.take m).map (fun kv => kv.1)) := by
  intro l
  induction l with
  | nil =>
    intro m results selected q he hsel hres hfresh htext hid hq hm1 hml
    simp at hml
    omega
  | cons hd tl ih =>
    intro m results selected q he hsel hres hfresh htext hid hq hm1 hml
    obtain ⟨⟨node, hnode, hmeta⟩, hlab, hkey⟩ := he hd (by simp)
    have htext2 : ((mfn hd.1).text ∉ tl.map (fun kv => (mfn kv.1).text))
        ∧ (tl.map (fun kv => (mfn kv.1).text)).Nodup :=
      List.nodup_cons.mp (by simpa using htext)
    have hid2 : (hd.1 ∉ tl.map Prod.fst) ∧ (tl.map Prod.fst).Nodup :=
      List.nodup_cons.mp (by simpa using hid)
    have hselhd : selected.contains hd.1 = false :=
      contains_false_of_not_mem (hsel hd (by simp))
    have hfreshhd : PyDict.get results ((mfn hd.1).text) = none := hfresh hd (by simp)
    have hlabels : MemorySystem.meta_labels store ((mfn hd.1).text) = ["short_sentence"] := by
      unfold MemorySystem.meta_labels
      rw [hkey]
      exact hlab
    have hset : PyDict.set results ((mfn hd.1).text)
        ((PyDict.get sess.hit_sources hd.1).getD [])
        = results ++ [c7_entry sess mfn hd] :=
      PyDict.set_fresh _ hfreshhd
    have hres2 : ∀ kv2 ∈ results ++ [c7_entry sess mfn hd],
        "short_sentence" ∈ MemorySystem.meta_labels store kv2.1 := by
      intro kv2 hkv2
      rcases List.mem_append.mp hkv2 with h2 | h2
      · exact hres kv2 h2
      · simp only [List.mem_singleton] at h2
        rw [h2]
        show "short_sentence" ∈ MemorySystem.meta_labels store (c7_entry sess mfn hd).1
        unfold c7_entry
        rw [hlabels]
        simp
    have hcount : ((results ++ [c7_entry sess mfn hd]).filter
        (fun kv => "short_sentence" ∈ MemorySystem.meta_labels store kv.1)).length
        = results.length + 1 := by
      rw [List.filter_eq_self.mpr (fun a ha => by simpa using hres2 a ha)]
      simp
    simp only [MemorySystem.add_by_label, hselhd, Bool.false_eq_true, if_false,
      hnode, hmeta]
    rw [if_pos (by rw [hlab]; simp)]
    rw [hset]
    by_cases hm2 : m = 1
    · subst hm2
      rw [if_pos (by rw [hcount]; omega)]
      simp [c7_entry]
    · have hm3 : 2 ≤ m := by omega
      rw [if_neg (by rw [hcount]; omega)]
      have htl := ih (m - 1) (results ++ [c7_entry sess mfn hd]) (selected ++ [hd.1]) q
        (fun kv hkv => he kv (List.mem_cons_of_mem _ hkv))
        ?_ hres2 ?_ htext2.2 hid2.2 ?_ (by omega) ?_
      · rw [htl]
        have hm4 : m = (m - 1) + 1 := by omega
        rw [hm4, List.take_succ_cons]
        simp [c7_entry]
      · intro kv hkv
        simp only [List.mem_append, List.mem_singleton]
        push_neg
        refine ⟨hsel kv (List.mem_cons_of_mem _ hkv), ?_⟩
        intro h2
        apply hid2.1
        rw [← h2]
        exact List.mem_map.mpr ⟨kv, hkv, rfl⟩
      · intro kv hkv
        rw [PyDict.get_append_none _ (hfresh kv (List.mem_cons_of_mem _ hkv))]
        have hne : (mfn hd.1).text ≠ (mfn kv.1).text := by
          intro hcon
          apply htext2.1
          rw [hcon]
          exact List.mem_map.mpr ⟨kv, hkv, rfl⟩
        simp only [c7_entry, PyDict.get]
        rw [if_neg hne]
      · simp only [List.length_append, List.length_singleton]
        push_cast
        omega
      · simp at hml
        omega

/-- A labelled pass whose label no entry carries (or whose entries are
already selected) changes nothing. -/
theorem add_pass_nop (store : InMemoryStore) (sess : SessionState) (label : String)
    (q : ℤ) :
    ∀ (l : List (String × ℕ)) (results : List (String × List String))
      (selected : List String),
    (∀ kv ∈ l, kv.1 ∈ selected ∨
      ∃ node meta, PyDict.get store.instance_table kv.1 = some node
        ∧ MemorySystem.meta_from_id store node.meta_id = some meta
        ∧ label ∉ meta.labels) →
    MemorySystem.add_by_label store sess label q l (results, selected)
      = some (results, selected) := by
  intro l
  induction l with
  | nil => intro results selected _; rfl
  | cons hd tl ih =>
    intro results selected h
    rcases h hd (by simp) with h1 | ⟨node, meta, hnode, hmeta, hlab⟩
    · have hc : selected.contains hd.1 = true := contains_true_of_mem h1
      simp only [MemorySystem.add_by_label, hc, if_true]
      exact ih results selected (fun kv hkv => h kv (List.mem_cons_of_mem _ hkv))
    · by_cases hc : selected.contains hd.1 = true
      · simp only [MemorySystem.add_by_label, hc, if_true]
        exact ih results selected (fun kv hkv => h kv (List.mem_cons_of_mem _ hkv))
      · simp only [MemorySystem.add_by_label, hc, Bool.false_eq_true, if_false,
          hnode, hmeta]
        rw [if_neg hlab]
        exact ih results selected (fun kv hkv => h kv (List.mem_cons_of_mem _ hkv))

/-- The possibly-relevant fill skips entries that are already selected. -/
theorem fill_nop (store : InMemoryStore) (sess : SessionState) :
    ∀ (l : List (String × ℕ)) (q : ℤ) (results : List (String × List String))
      (selected : List String),
    (∀ kv ∈ l, kv.1 ∈ selected) →
    MemorySystem.fill_possible store sess q l (results, selected)
      = some (results, selected) := by
  intro l
  induction l with
  | nil => intro q results selected _; rfl
  | cons hd tl ih =>
    intro q results selected h
    have hc : selected.contains hd.1 = true := contains_true_of_mem (h hd (by simp))
    simp only [MemorySystem.fill_possible, hc, if_true]
    exact ih q results selected (fun kv hkv => h kv (List.mem_cons_of_mem _ hkv))

/-- The possibly-relevant fill admits the single unselected instance —
regardless of the quota value, because the quota is only tested after an
addition. -/
theorem fill_adds_one (store : InMemoryStore) (sess : SessionState)
    (mfn : String → MetaEntry) :
    ∀ (l1 : List (String × ℕ)) (e0 : String × ℕ) (l2 : List (String × ℕ))
      (q : ℤ) (results : List (String × List String)) (selected : List String),
    (∀ kv ∈ l1, kv.1 ∈ selected) →
    e0.1 ∉ selected →
    c7elig store mfn e0.1 →
    (∀ kv ∈ l2, kv.1 ∈ selected ∨ kv.1 = e0.1) →
    MemorySystem.fill_possible store sess q (l1 ++ e0 :: l2) (results, selected)
      = some (PyDict.set results ((mfn e0.1).text)
                ((PyDict.get sess.hit_sources e0.1).getD []),
              selected ++ [e0.1]) := by
  intro l1
  induction l1 with
  | nil =>
    intro e0 l2 q results selected h1 h0 helig h2
    obtain ⟨⟨node, hnode, hmeta⟩, hlab, hkey⟩ := helig
    have hc : selected.contains e0.1 = false := contains_false_of_not_mem h0
    simp only [List.nil_append, MemorySystem.fill_possible, hc, Bool.false_eq_true,
      if_false, hnode, hmeta]
    split
    · rfl
    · refine fill_nop store sess l2 _ _ _ ?_
      intro kv hkv
      rcases h2 kv hkv with h3 | h3
      · exact List.mem_append.mpr (Or.inl h3)
      · exact List.mem_append.mpr (Or.inr (by simp [h3]))
  | cons hd tl ih =>
    intro e0 l2 q results selected h1 h0 helig h2
    have hc : selected.contains hd.1 = true := contains_true_of_mem (h1 hd (by simp))
    simp only [List.cons_append, MemorySystem.fill_possible, hc, if_true]
    exact ih e0 l2 q results selected (fun kv hkv => h1 kv (List.mem_cons_of_mem _ hkv))
      h0 helig h2

/-- C7 (amended). If a retrieval touches exactly 10 instances, all owned
by distinct metas that carry only the label `short_sentence`, and the
short-sentence quota is 9, then the result contains ALL TEN of those
instances' metas, in descending light-count order with deterministic
tie-breaking (the stable sort of the session counts): the short-sentence
pass selects the first nine, and the final possibly-relevant pass admits
the remaining one regardless of its quota, because that quota is tested
only after an addition. -/
theorem C7_amended_all_ten_returned (fuel : ℕ) (store : InMemoryStore)
    (cfg : MemoryConfig) (query_tokens : List String)
    (res : List (String × List String)) (sess : SessionState)
    (mfn : String → MetaEntry)
    (hshort : cfg.retrieval_quota_short = 9)
    (hres : (MemorySystem.retrieve fuel store cfg query_tokens).2 = some res)
    (hsess : MemorySystem.retrieve_session fuel store cfg query_tokens = some sess)
    (hlen : sess.light_count.length = 10)
    (helig : ∀ kv ∈ sess.light_count, c7elig store mfn kv.1)
    (htext : (sess.light_count.map (fun kv => (mfn kv.1).text)).Nodup)
    (hid : (sess.light_count.map Prod.fst).Nodup) :
    res = (sortDescBy (fun p => p.2) sess.light_count).map (c7_entry sess mfn)
    ∧ res.length = 10 := by
  have hperm : (sortDescBy (fun p : String × ℕ => p.2) sess.light_count).Perm
      sess.light_count := sortDescBy_perm _ _
  set ranked : List (String × ℕ) := sortDescBy (fun p : String × ℕ => p.2) sess.light_count
    with hrankeddef
  have hlenR : ranked.length = 10 := hperm.length_eq.trans hlen
  have heligR : ∀ kv ∈ ranked, c7elig store mfn kv.1 :=
    fun kv hkv => helig kv (hperm.subset hkv)
  have htextR : (ranked.map (fun kv => (mfn kv.1).text)).Nodup :=
    (List.Perm.nodup_iff (hperm.map _)).mpr htext
  have hidR : (ranked.map Prod.fst).Nodup :=
    (List.Perm.nodup_iff (hperm.map _)).mpr hid
  have hd9 : (ranked.drop 9).length = 1 := by
    rw [List.length_drop, hlenR]
  obtain ⟨e10, he10⟩ := List.length_eq_one.mp hd9
  have hsplit2 : ranked = ranked.take 9 ++ e10 :: [] := by
    conv_lhs => rw [← List.take_append_drop 9 ranked]
    rw [he10]
  have he10mem : e10 ∈ ranked := by
    rw [hsplit2]
    exact List.mem_append.mpr (Or.inr (by simp))
  have hidsplit : ((ranked.take 9).map Prod.fst ++ [e10.1]).Nodup := by
    have heq : ranked.map Prod.fst = (ranked.take 9).map Prod.fst ++ [e10.1] := by
      conv_lhs => rw [hsplit2]
      simp
    rw [← heq]
    exact hidR
  have htextsplit : ((ranked.take 9).map (fun kv => (mfn kv.1).text)
      ++ [(mfn e10.1).text]).Nodup := by
    have heq : ranked.map (fun kv => (mfn kv.1).text)
        = (ranked.take 9).map (fun kv => (mfn kv.1).text) ++ [(mfn e10.1).text] := by
      conv_lhs => rw [hsplit2]
      simp
    rw [← heq]
    exact htextR
  have h0 : e10.1 ∉ (ranked.take 9).map Prod.fst := by
    intro hc
    exact (List.nodup_append.mp hidsplit).2.2 hc (by simp)
  have htake : ∀ kv ∈ ranked.take 9, kv ∈ ranked := fun kv hkv => List.mem_of_mem_take hkv
  have h1 := add_short_takes store sess mfn ranked 9 [] [] cfg.retrieval_quota_short
    heligR (by simp) (by simp) (fun kv _ => rfl) htextR hidR
    (by rw [hshort]; norm_num) (by norm_num) (by omega)
  simp only [List.nil_append] at h1
  have hnop : ∀ label2 : String, label2 ∉ (["short_sentence"] : List String) →
      ∀ q2 : ℤ, MemorySystem.add_by_label store sess label2 q2 ranked
        ((ranked.take 9).map (c7_entry sess mfn), (ranked.take 9).map Prod.fst)
        = some ((ranked.take 9).map (c7_entry sess mfn), (ranked.take 9).map Prod.fst) := by
    intro label2 hlabel2 q2
    refine add_pass_nop store sess label2 q2 ranked _ _ ?_
    intro kv hkv
    rw [hsplit2] at hkv
    rcases List.mem_append.mp hkv with h2 | h2
    · exact Or.inl (List.mem_map.mpr ⟨kv, h2, rfl⟩)
    · simp only [List.mem_singleton] at h2
      obtain ⟨⟨node, hnode, hmeta⟩, hlab, _⟩ := heligR e10 he10mem
      rw [h2]
      refine Or.inr ⟨node, mfn e10.1, hnode, hmeta, ?_⟩
      rw [hlab]
      exact hlabel2
  have hfill := fill_adds_one store sess mfn (ranked.take 9) e10 []
    cfg.retrieval_quota_possible
    ((ranked.take 9).map (c7_entry sess mfn)) ((ranked.take 9).map Prod.fst)
    (fun kv hkv => List.mem_map.mpr ⟨kv, hkv, rfl⟩) h0 (heligR e10 he10mem)
    (by simp)
  have hfreshlast : PyDict.get ((ranked.take 9).map (c7_entry sess mfn))
      ((mfn e10.1).text) = none := by
    refine PyDict.get_eq_none ?_
    intro kv2 hkv2
    obtain ⟨kv, hkv, hkve⟩ := List.mem_map.mp hkv2
    intro hc
    have hmm : (mfn e10.1).text ∈ (ranked.take 9).map (fun kv => (mfn kv.1).text) := by
      rw [← hc, ← hkve]
      exact List.mem_map.mpr ⟨kv, hkv, rfl⟩
    exact (List.nodup_append.mp htextsplit).2.2 hmm (by simp)
  have hsetlast : PyDict.set ((ranked.take 9).map (c7_entry sess mfn))
      ((mfn e10.1).text) ((PyDict.get sess.hit_sources e10.1).getD [])
      = (ranked.take 9).map (c7_entry sess mfn) ++ [c7_entry sess mfn e10] :=
    PyDict.set_fresh _ hfreshlast
  have hfinal : (ranked.take 9).map (c7_entry sess mfn) ++ [c7_entry sess mfn e10]
      = ranked.map (c7_entry sess mfn) := by
    conv_rhs => rw [hsplit2]
    simp
  have hcol : MemorySystem.collect_retrieval_results store cfg ranked sess
      = some (ranked.map (c7_entry sess mfn)) := by
    unfold MemorySystem.collect_retrieval_results
    rw [h1]
    simp only
    rw [hnop "long_sentence" (by decide) cfg.retrieval_quota_long]
    simp only
    rw [hnop "paragraph" (by decide) cfg.retrieval_quota_paragraph]
    simp only
    rw [hnop "full_text" (by decide) cfg.retrieval_quota_memory]
    simp only
    rw [← hsplit2] at hfill
    rw [hfill]
    simp only
    rw [hsetlast, hfinal]
  unfold MemorySystem.retrieve at hres
  cases hseeds : MemorySystem.retrieve_seeds store query_tokens with
  | none =>
    exfalso
    unfold MemorySystem.retrieve_session at hsess
    rw [hseeds] at hsess
    exact Option.noConfusion hsess
  | some seed_nodes =>
    cases seed_nodes with
    | nil =>
      exfalso
      unfold MemorySystem.retrieve_session at hsess
      rw [hseeds] at hsess
      exact Option.noConfusion hsess
    | cons seed seeds =>
      rw [hseeds] at hres
      simp only at hres
      rw [hsess] at hres
      simp only at hres
      rw [← hrankeddef] at hres
      rw [hcol] at hres
      simp only [Option.some.injEq] at hres
      rw [← hres]
      refine ⟨rfl, ?_⟩
      rw [List.length_map, hlenR]

/-- Witness for C7 (amended) on the ten-seed fixture: the full result in
ranked order, of length 10. -/
theorem C7_amended_all_ten_returned_witness :
    ([("w1", ["n1"]), ("w2", ["n2"]), ("w3", ["n3"]), ("w4", ["n4"]),
      ("w5", ["n5"]), ("w6", ["n6"]), ("w7", ["n7"]), ("w8", ["n8"]),
      ("w9", ["n9"]), ("wx", ["nx"])] : List (String × List String))
      = (sortDescBy (fun p => p.2) c7_sess.light_count).map (c7_entry c7_sess c7_mfn)
    ∧ ([("w1", ["n1"]), ("w2", ["n2"]), ("w3", ["n3"]), ("w4", ["n4"]),
        ("w5", ["n5"]), ("w6", ["n6"]), ("w7", ["n7"]), ("w8", ["n8"]),
        ("w9", ["n9"]), ("wx", ["nx"])] : List (String × List String)).length = 10 :=
  C7_amended_all_ten_returned 12 c7_store {} c7_tokens _ c7_sess c7_mfn
    rfl (by with_unfolding_all decide) (by with_unfolding_all decide) (by decide)
    (by
      intro kv hkv
      fin_cases hkv <;> exact ⟨⟨_, rfl, rfl⟩, rfl, rfl⟩)
    (by with_unfolding_all decide) (by decide)

/-! ## Claim C7: the quota scenario -/

/-- C7 counterexample: ten touched instances, all owned by distinct metas
labelled only `short_sentence`, short-sentence quota 9 (the default
configuration) — yet the returned mapping contains all ten metas, not
exactly nine: the final "possibly relevant" pass admits the tenth. -/
theorem C7_counterexample_ten_results :
    (MemorySystem.retrieve_session 12 c7_store {} c7_tokens).map
      (fun s => s.light_count.length) = some 10
    ∧ (MemoryConfig.retrieval_quota_short {}) = 9
    ∧ (∀ kv ∈ c7_store.meta_table, kv.2.labels = ["short_sentence"])
    ∧ (MemorySystem.retrieve 12 c7_store {} c7_tokens).2
      = some [("w1", ["n1"]), ("w2", ["n2"]), ("w3", ["n3"]), ("w4", ["n4"]),
              ("w5", ["n5"]), ("w6", ["n6"]), ("w7", ["n7"]), ("w8", ["n8"]),
              ("w9", ["n9"]), ("wx", ["nx"])]
    ∧ (MemorySystem.retrieve 12 c7_store {} c7_tokens).2.map List.length = some 10 := by
  refine ⟨by with_unfolding_all decide, by with_unfolding_all decide,
    by with_unfolding_all decide, by with_unfolding_all decide,
    by with_unfolding_all decide⟩

/-! ## Claim C2: the crystallization threshold formula -/

/-- The fueled halving loop computes `Nat.clog 2` whenever the fuel
dominates the argument. -/
theorem clog2_fuel_eq (fuel : ℕ) : ∀ n : ℕ, n ≤ fuel → clog2_fuel fuel n = Nat.clog 2 n := by
  induction fuel with
  | zero =>
    intro n h
    have hn : n = 0 := by omega
    subst hn
    simp [clog2_fuel]
  | succ fuel ih =>
    intro n h
    by_cases h1 : n ≤ 1
    · simp [clog2_fuel, h1, Nat.clog_of_right_le_one h1]
    · have h2 : 2 ≤ n := by omega
      have hstep : Nat.clog 2 n = Nat.clog 2 ((n + 2 - 1) / 2) + 1 :=
        Nat.clog_of_two_le (by norm_num) h2
      have hrec : (n + 1) / 2 ≤ fuel := by omega
      have harg : n + 2 - 1 = n + 1 := by omega
      simp only [clog2_fuel, h1, if_false]
      rw [ih _ hrec, hstep, harg]

theorem ceil_log2_eq_clog (n : ℕ) : ceil_log2 n = Nat.clog 2 n :=
  clog2_fuel_eq n n le_rfl

/-- C2. For every `totalCount`, the crystallization threshold equals the
configured base threshold when `totalCount ≤ 1` and
`ceil(log2(totalCount)) + 1` otherwise; for `totalCount = 1, 2, 3, 4, 5`
the thresholds are `base, 2, 3, 3, 4`. -/
theorem C2_crystallize_threshold_spec (cfg : MemoryConfig) (t : ℕ) :
    (t ≤ 1 → MemorySystem.crystallize_threshold cfg t = cfg.crystallize_threshold)
    ∧ (2 ≤ t →
        (MemorySystem.crystallize_threshold cfg t : ℤ) = ⌈Real.logb 2 (t : ℝ)⌉ + 1)
    ∧ MemorySystem.crystallize_threshold cfg 1 = cfg.crystallize_threshold
    ∧ MemorySystem.crystallize_threshold cfg 2 = 2
    ∧ MemorySystem.crystallize_threshold cfg 3 = 3
    ∧ MemorySystem.crystallize_threshold cfg 4 = 3
    ∧ MemorySystem.crystallize_threshold cfg 5 = 4 := by
  refine ⟨fun h => by simp [MemorySystem.crystallize_threshold, h], fun h => ?_, ?_, ?_, ?_, ?_, ?_⟩
  · have hnotle : ¬ t ≤ 1 := by omega
    have hcast : (2 : ℝ) = ((2 : ℕ) : ℝ) := by norm_num
    have hceil : ⌈Real.logb 2 (t : ℝ)⌉ = Int.clog 2 (t : ℝ) := by
      rw [hcast]
      exact Real.ceil_logb_natCast (by positivity)
    rw [hceil, Int.clog_natCast]
    simp [MemorySystem.crystallize_threshold, hnotle, ceil_log2_eq_clog]
  · simp [MemorySystem.crystallize_threshold]
  · simp [MemorySystem.crystallize_threshold, ceil_log2, clog2_fuel]
  · simp [MemorySystem.crystallize_threshold, ceil_log2, clog2_fuel]
  · simp [MemorySystem.crystallize_threshold, ceil_log2, clog2_fuel]
  · simp [MemorySystem.crystallize_threshold, ceil_log2, clog2_fuel]

/-- Witness for C2: both guarded branches instantiated (`totalCount = 1`
with the default base threshold 2, and `totalCount = 5`), plus the
concrete value at 5. -/
theorem C2_crystallize_threshold_spec_witness :
    MemorySystem.crystallize_threshold {} 1 = 2
    ∧ (MemorySystem.crystallize_threshold {} 5 : ℤ) = ⌈Real.logb 2 ((5 : ℕ) : ℝ)⌉ + 1
    ∧ MemorySystem.crystallize_threshold {} 5 = 4 :=
  ⟨((C2_crystallize_threshold_spec {} 1).1 (by decide)).trans rfl,
   (C2_crystallize_threshold_spec {} 5).2.1 (by decide),
   (C2_crystallize_threshold_spec {} 5).2.2.2.2.2.2⟩

/-! ## Claim C9: the dynamic radius is antitone in effective frequency -/

/-- C9. For a fixed calibration (whose calibrated distances and typical
frequency are nonnegative, as produced by the calibrator: Euclidean
distances resp. a median of word frequencies), a fixed hit probability, a
positive frequency floor `eps`, and clamping bounds with
`radius_floor ≤ radius_ceiling`, the computed radius is monotonically
non-increasing in the effective frequency. -/
theorem C9_radius_from_frequency_antitone (cal : FrequencyCalibration)
    (p avg rmin rmax eps e1 e2 : ℝ)
    (hscale : 0 ≤ cal.distance_scale p) (havg : 0 ≤ avg) (heps : 0 < eps)
    (hbounds : rmin ≤ rmax) (h12 : e1 ≤ e2) :
    radius_from_frequency cal e2 p avg rmin rmax eps
      ≤ radius_from_frequency cal e1 p avg rmin rmax eps := by
  have hmax1 : (0 : ℝ) < max e1 eps := lt_max_of_lt_right heps
  have hmaxle : max e1 eps ≤ max e2 eps := max_le_max h12 le_rfl
  have hdiv : avg / max e2 eps ≤ avg / max e1 eps :=
    div_le_div_of_nonneg_left havg hmax1 hmaxle
  have hraw : cal.distance_scale p * (avg / max e2 eps)
      ≤ cal.distance_scale p * (avg / max e1 eps) :=
    mul_le_mul_of_nonneg_left hdiv hscale
  unfold radius_from_frequency
  dsimp only
  split_ifs <;> linarith

/-- Witness for C9 with the empty calibration (distance scale 1),
`avg = 0`, bounds `[0, 1]`, `eps = 1`, frequencies `0 ≤ 1`. -/
theorem C9_radius_from_frequency_antitone_witness :
    radius_from_frequency ⟨[], 0, 1⟩ 1 (1/2) 0 0 1 1
      ≤ radius_from_frequency ⟨[], 0, 1⟩ 0 (1/2) 0 0 1 1 :=
  C9_radius_from_frequency_antitone ⟨[], 0, 1⟩ (1/2) 0 0 1 1 0 1
    (by simp [FrequencyCalibration.distance_scale]) (le_refl 0) one_pos
    zero_le_one zero_le_one

/-! ## Claim C10: constructing the engine raises TypeError -/

/-- C10.  `MemorySystem.__init__` passes three positional arguments to
`Registry`, whose `__init__` besides `self` accepts exactly two; for
every loaded store (hence for every configuration and storage backend)
the call raises `TypeError`, so a fresh engine never completes
construction and `write_text` / `recite_text` / `retrieve_text` are
unreachable. -/
theorem C10_init_raises_type_error (loaded_store : InMemoryStore) :
    MemorySystem.init_registry_call loaded_store = Except.error PyError.typeError := rfl

/-! ## Claim C1: the double-write crystallization scenario -/

/-- C1 (code bug).  The claimed scenario cannot even complete its first
step: on an empty registry with the default configuration, writing
`["上", "山"]` once already raises `TypeError`, because the very first
token misses the meta table and `Registry.ensure_meta` constructs
`MetaEntry(..., normalized_text=...)` — a keyword the `MetaEntry`
dataclass does not declare.  No crystallization (nor any write) is
reachable, refuting the claim's promised outcome. -/
theorem C1_code_bug_write_raises :
    MemorySystem.write_sequence {} vp0 jit0 cal0 {} ["上", "山"]
      = Except.error PyError.typeError := rfl

/-! ## Claim C3: `ensure_meta` hit and miss branches -/

/-- C3 (code bug).  The hit branch behaves as specified: on a registry
holding the normalized key `上` (display text `上`, private frequency 1),
`ensure_meta` with the longer surface form `上！` returns the stored meta
with private frequency 2 and display text upgraded to `上！`, rewriting
the table entry in place.  The miss branch, however, never allocates the
promised fresh meta: on an empty registry every call raises `TypeError`
(the `MetaEntry` constructor is passed the undeclared keyword
`normalized_text`). -/
theorem C3_code_bug_ensure_meta :
    Registry.ensure_meta c3_state "上！" 1 none
        = Except.ok (c3_meta2,
            { c3_state with store := { c3_state.store with
                meta_table := [("上", c3_meta2)] } })
    ∧ Registry.ensure_meta {} "上" 1 none = Except.error PyError.typeError :=
  ⟨rfl, rfl⟩

/-! ## Claim C4: refractory guard and suppression -/

/-- On `c4_S0` (edge walk count 2, both refractory counters 0, merged
meta pre-registered) the crystallization check fires and produces exactly
`c4_S1`. -/
theorem c4_crystallize_eq :
    MemorySystem.maybe_crystallize c4_cfg vp0 jit0 c4_S0 "node-1" "node-2"
      = Except.ok c4_S1 := rfl

theorem update_instance_graph (s : InMemoryStore) (nid : String)
    (f : InstanceNode → InstanceNode) : (update_instance s nid f).graph = s.graph := rfl

theorem update_instance_meta_table (s : InMemoryStore) (nid : String)
    (f : InstanceNode → InstanceNode) :
    (update_instance s nid f).meta_table = s.meta_table := rfl

theorem get_update_instance (s : InMemoryStore) (nid x : String)
    (f : InstanceNode → InstanceNode) :
    PyDict.get (update_instance s nid f).instance_table x
      = if x = nid then (PyDict.get s.instance_table nid).map f
        else PyDict.get s.instance_table x := by
  unfold update_instance
  cases h : PyDict.get s.instance_table nid with
  | none =>
    by_cases hx : x = nid
    · subst hx
      simp [h]
    · simp [hx]
  | some nd =>
    dsimp only
    rw [PyDict.get_set]
    by_cases hx : x = nid
    · subst hx
      simp [h]
    · have hxs : ¬ nid = x := fun hh => hx hh.symm
      simp [hx, hxs]

/-- The refractory guard of `_maybe_crystallize`: with the edge present
and either endpoint's refractory counter nonzero, the call only
decrements both counters (toward zero) and returns — it touches no meta,
no edge and no other instance, and no crystallization happens. -/
theorem maybe_crystallize_guard (config : MemoryConfig) (vp : String → List ℝ)
    (jit : ℕ → ℝ → List ℝ) (st : SystemState) (lid rid : String)
    (left right : InstanceNode) (e : EdgeData)
    (hl : PyDict.get st.store.instance_table lid = some left)
    (hr : PyDict.get st.store.instance_table rid = some right)
    (he : st.store.graph.get_edge lid rid = some e)
    (href : 0 < left.stats.refractory ∨ 0 < right.stats.refractory) :
    MemorySystem.maybe_crystallize config vp jit st lid rid
      = Except.ok { st with store := update_instance (update_instance st.store lid dec_refractory) rid dec_refractory } := by
  unfold MemorySystem.maybe_crystallize
  rw [hl, hr]
  dsimp only
  rw [he]
  dsimp only
  rw [if_pos href]
  rfl

theorem pyInsertBy_perm {α : Type} (strict : α → α → Prop) [DecidableRel strict]
    (x : α) (l : List α) : (pyInsertBy strict x l).Perm (x :: l) := by
  induction l with
  | nil => exact List.Perm.refl _
  | cons y ys ih =>
    unfold pyInsertBy
    split_ifs
    · exact List.Perm.refl _
    · exact (ih.cons y).trans (List.Perm.swap x y ys)

theorem pySortBy_perm_aux {α : Type} (strict : α → α → Prop) [DecidableRel strict]
    (l : List α) : ∀ acc : List α,
    (l.foldl (fun acc x => pyInsertBy strict x acc) acc).Perm (acc ++ l) := by
  induction l with
  | nil => intro acc; simp
  | cons x xs ih =>
    intro acc
    have h1 := ih (pyInsertBy strict x acc)
    have h2 : (pyInsertBy strict x acc ++ xs).Perm ((x :: acc) ++ xs) :=
      (pyInsertBy_perm strict x acc).append_right xs
    have h3 : ((x :: acc) ++ xs).Perm (acc ++ x :: xs) := List.perm_middle.symm
    exact (h1.trans h2).trans h3

theorem pySortBy_perm {α : Type} (strict : α → α → Prop) [DecidableRel strict]
    (l : List α) : (pySortBy strict l).Perm l := by
  have h := pySortBy_perm_aux strict l []
  simpa [pySortBy] using h

theorem mem_pySortBy {α : Type} {strict : α → α → Prop} [DecidableRel strict]
    {l : List α} {x : α} (h : x ∈ pySortBy strict l) : x ∈ l :=
  (pySortBy_perm strict l).mem_iff.mp h

/-- `_select_best` on a non-empty candidate list returns the head of the
stable sort, which is one of the candidates. -/
theorem select_best_some {cands : List (InstanceNode × ℝ)} (h : cands ≠ []) :
    ∃ chosen, MemorySystem.select_best cands = some chosen.1 ∧ chosen ∈ cands := by
  classical
  cases hs : pySortBy MemorySystem.candidate_before cands with
  | nil =>
    have hperm := pySortBy_perm MemorySystem.candidate_before cands
    rw [hs] at hperm
    exact absurd hperm.symm.eq_nil h
  | cons c rest =>
    refine ⟨c, ?_, ?_⟩
    · unfold MemorySystem.select_best
      rw [hs]
    · exact mem_pySortBy (hs ▸ List.mem_cons_self c rest)

/-- The candidate loop of `_find_candidates` on resolvable instance ids:
it returns successfully, every candidate is the stored node of its own
id, and the list is non-empty as soon as some listed instance lies within
the radius. -/
theorem find_candidates_go_ok (st : SystemState) (center : List ℝ) (radius : ℝ)
    (hkeys : ∀ nid nd, PyDict.get st.store.instance_table nid = some nd →
      nd.node_id = nid) :
    ∀ ids : List String,
    (∀ nid ∈ ids, (PyDict.get st.store.instance_table nid).isSome = true) →
    ∃ cands, MemorySystem.find_candidates_go st center radius ids = Except.ok cands
      ∧ (∀ p ∈ cands, PyDict.get st.store.instance_table p.1.node_id = some p.1)
      ∧ (∀ nid nd, nid ∈ ids → PyDict.get st.store.instance_table nid = some nd →
          vdist center nd.vector_pos ≤ radius → cands ≠ []) := by
  intro ids
  induction ids with
  | nil =>
    intro _
    exact ⟨[], rfl, by simp, by simp⟩
  | cons nid0 rest ih =>
    intro hwf
    have h0 := hwf nid0 (List.mem_cons_self _ _)
    obtain ⟨node, hn⟩ := Option.isSome_iff_exists.mp h0
    obtain ⟨tail, htail, hmemtail, hnetail⟩ :=
      ih (fun nid hmem => hwf nid (List.mem_cons_of_mem _ hmem))
    by_cases hd : vdist center node.vector_pos ≤ radius
    · refine ⟨(node, vdist center node.vector_pos) :: tail, ?_, ?_, ?_⟩
      · unfold MemorySystem.find_candidates_go
        rw [hn, htail]
        dsimp only
        rw [if_pos hd]
      · intro p hp
        rcases List.mem_cons.mp hp with hp | hp
        · subst hp
          rw [hkeys nid0 node hn]
          exact hn
        · exact hmemtail p hp
      · intro _ _ _ _ _
        simp
    · refine ⟨tail, ?_, hmemtail, ?_⟩
      · unfold MemorySystem.find_candidates_go
        rw [hn, htail]
        dsimp only
        rw [if_neg hd]
      · intro nid nd hmem hget hdist
        rcases List.mem_cons.mp hmem with hmem | hmem
        · subst hmem
          rw [hget] at hn
          cases hn
          exact absurd hdist hd
        · exact hnetail nid nd hmem hget hdist

/-- `_dynamic_radius` reads only the meta table. -/
theorem dynamic_radius_congr (config : MemoryConfig) (cal : FrequencyCalibration)
    {st1 st2 : SystemState} (h : st1.store.meta_table = st2.store.meta_table)
    (t : String) :
    MemorySystem.dynamic_radius config cal st1 t
      = MemorySystem.dynamic_radius config cal st2 t := by
  unfold MemorySystem.dynamic_radius MemorySystem.private_typical_frequency
  rw [h]

/-- The clamped dynamic radius is nonnegative whenever the configured
clamping bounds are. -/
theorem dynamic_radius_nonneg (config : MemoryConfig) (cal : FrequencyCalibration)
    (st : SystemState) (t : String) (h1 : 0 ≤ config.radius_floor)
    (h2 : 0 ≤ config.radius_ceiling) :
    0 ≤ MemorySystem.dynamic_radius config cal st t := by
  unfold MemorySystem.dynamic_radius
  cases hm : PyDict.get st.store.meta_table (normalize_text t) with
  | none => exact h2
  | some meta =>
    dsimp only
    exact le_min (le_trans h1 (le_max_right _ _)) h2

theorem PyDict.contains_of_get {κ α : Type} [DecidableEq κ] {l : List (κ × α)}
    {k : κ} {v : α} (h : PyDict.get l k = some v) : PyDict.contains l k = true := by
  unfold PyDict.contains
  rw [h]
  rfl

/-- `_ensure_instance` when the token's meta is registered with
resolvable instances, at least one of which lies within the dynamic
radius: the select branch runs (no creation), bumping only the chosen
instance's use count. -/
theorem ensure_instance_select (config : MemoryConfig) (vp : String → List ℝ)
    (jit : ℕ → ℝ → List ℝ) (cal : FrequencyCalibration) (st : SystemState)
    (tok : String) (center : List ℝ) (cmeta : MetaEntry)
    (hkeys : ∀ nid nd, PyDict.get st.store.instance_table nid = some nd →
      nd.node_id = nid)
    (hm : PyDict.get st.store.meta_table (normalize_text tok) = some cmeta)
    (hwf : ∀ nid ∈ cmeta.instances,
      (PyDict.get st.store.instance_table nid).isSome = true)
    (hnear : ∃ nid nd, nid ∈ cmeta.instances
      ∧ PyDict.get st.store.instance_table nid = some nd
      ∧ vdist center nd.vector_pos ≤ MemorySystem.dynamic_radius config cal st tok) :
    ∃ chosen node2,
      MemorySystem.ensure_instance config vp jit cal st tok center
        = Except.ok (node2, { st with store := update_instance st.store chosen.node_id (fun _ => node2) })
      ∧ PyDict.get st.store.instance_table chosen.node_id = some chosen
      ∧ node2 = { chosen with stats := { chosen.stats with use_count := chosen.stats.use_count + 1 } } := by
  classical
  obtain ⟨nid0, nd0, hmem0, hget0, hdist0⟩ := hnear
  obtain ⟨cands, hgo, hcmem, hcne⟩ :=
    find_candidates_go_ok st center (MemorySystem.dynamic_radius config cal st tok)
      hkeys cmeta.instances hwf
  have hne : cands ≠ [] := hcne nid0 nd0 hmem0 hget0 hdist0
  obtain ⟨chosen, hsel, hchmem⟩ := select_best_some hne
  have hch : PyDict.get st.store.instance_table chosen.1.node_id = some chosen.1 :=
    hcmem chosen hchmem
  have hfc : MemorySystem.find_candidates st tok center
      (MemorySystem.dynamic_radius config cal st tok) = Except.ok cands := by
    unfold MemorySystem.find_candidates
    rw [hm]
    exact hgo
  refine ⟨chosen.1, _, ?_, hch, rfl⟩
  simp only [MemorySystem.ensure_instance]
  rw [hfc]
  dsimp only
  rw [hsel]

/-- Writing a two-token sequence whose concatenation is a registered
meta with a reachable instance: `_prefer_longer_tokens` merges the pair
into the single crystallized token, whose write only bumps the chosen
instance's use count — and the scenario itself persists, so every later
registration of the same pair behaves the same way. -/
theorem write_merged_pair (config : MemoryConfig) (vp : String → List ℝ)
    (jit : ℕ → ℝ → List ℝ) (cal : FrequencyCalibration) (st : SystemState)
    (t1 t2 : String) (h : merged_scenario config cal st t1 t2) :
    ∃ chosen node2 st2,
      MemorySystem.write_sequence config vp jit cal st [t1, t2] = Except.ok ([node2], st2)
      ∧ PyDict.get st.store.instance_table chosen.node_id = some chosen
      ∧ node2 = { chosen with stats := { chosen.stats with use_count := chosen.stats.use_count + 1 } }
      ∧ st2 = { st with store := update_instance st.store chosen.node_id (fun _ => node2) }
      ∧ merged_scenario config cal st2 t1 t2 := by
  classical
  obtain ⟨hn1, hn2, hkeys, cmeta, hm, hwf, hnear⟩ := h
  obtain ⟨chosen, node2, heq, hch, hnode2⟩ :=
    ensure_instance_select config vp jit cal st (t1 ++ t2)
      (zero_vector config.vector_dim) cmeta hkeys hm hwf hnear
  have hnodeid : node2.node_id = chosen.node_id := by rw [hnode2]
  have hrefr : node2.stats.refractory = chosen.stats.refractory := by rw [hnode2]
  have hpos : node2.vector_pos = chosen.vector_pos := by rw [hnode2]
  refine ⟨chosen, node2, _, ?_, hch, hnode2, rfl, ?_⟩
  · simp only [MemorySystem.write_sequence]
    have hfil : ([t1, t2].filter (fun t => normalize_text t ≠ "")) = [t1, t2] := by
      simp [hn1, hn2]
    rw [hfil]
    have hpref : MemorySystem.prefer_longer_tokens st.store [t1, t2] = [t1 ++ t2] := by
      simp [MemorySystem.prefer_longer_tokens, PyDict.contains_of_get hm]
    rw [hpref]
    unfold MemorySystem.write_loop
    rw [heq]
    rfl
  · refine ⟨hn1, hn2, ?_, cmeta, ?_, ?_, ?_⟩
    · intro nid nd hget
      rw [get_update_instance] at hget
      by_cases hx : nid = chosen.node_id
      · rw [if_pos hx, hch] at hget
        cases hget
        rw [hnodeid, hx]
      · rw [if_neg hx] at hget
        exact hkeys nid nd hget
    · rw [update_instance_meta_table]
      exact hm
    · intro nid hmemI
      rw [get_update_instance]
      by_cases hx : nid = chosen.node_id
      · rw [if_pos hx, hch]
        rfl
      · rw [if_neg hx]
        exact hwf nid hmemI
    · obtain ⟨nid0, nd0, hmem0, hget0, hdist0⟩ := hnear
      have hrad : MemorySystem.dynamic_radius config cal
          { st with store := update_instance st.store chosen.node_id (fun _ => node2) }
            (t1 ++ t2)
          = MemorySystem.dynamic_radius config cal st (t1 ++ t2) := by
        apply dynamic_radius_congr
        exact update_instance_meta_table _ _ _
      by_cases hx : nid0 = chosen.node_id
      · refine ⟨nid0, node2, hmem0, ?_, ?_⟩
        · rw [get_update_instance, if_pos hx, hch]
          rfl
        · rw [hrad, hpos]
          have : nd0 = chosen := by
            rw [hx, hch] at hget0
            cases hget0
            rfl
          rw [← this]
          exact hdist0
      · refine ⟨nid0, nd0, hmem0, ?_, ?_⟩
        · rw [get_update_instance, if_neg hx]
          exact hget0
        · rw [hrad]
          exact hdist0

theorem c4_pos3_eq : c4_pos3 = [(0 : ℝ)] := by
  simp [c4_pos3, vadd, vmean, vscale, vnormalize, zero_vector, jit0, c4_cfg]

/-- `c4_S1` satisfies the merged-pair scenario for `上, 山`: the
crystallized meta `上山` is registered, its single instance `node-3`
resolves, and it lies at distance 0 from the zero center, within the
(nonnegative) dynamic radius. -/
theorem c4_scenario : merged_scenario c4_cfg cal0 c4_S1 "上" "山" := by
  refine ⟨by decide, by decide, ?_, c4_m3c, rfl, ?_, ?_⟩
  · intro nid nd h
    have hviews : PyDict.get c4_S1.store.instance_table nid
        = if "node-1" = nid then some c4_n1r else if "node-2" = nid then some c4_n2r
          else if "node-3" = nid then some c4_n3 else none := rfl
    rw [hviews] at h
    split_ifs at h with h1 h2 h3
    · injection h with h4
      rw [← h4, ← h1]
      rfl
    · injection h with h4
      rw [← h4, ← h2]
      rfl
    · injection h with h4
      rw [← h4, ← h3]
      rfl
  · intro nid hmem
    have : nid = "node-3" := by simpa [c4_m3c] using hmem
    subst this
    rfl
  · refine ⟨"node-3", c4_n3, by simp [c4_m3c], rfl, ?_⟩
    have hdist : vdist (zero_vector c4_cfg.vector_dim) c4_n3.vector_pos = 0 := by
      simp [vdist, zero_vector, c4_cfg, c4_n3, c4_pos3_eq]
    rw [hdist]
    exact dynamic_radius_nonneg c4_cfg cal0 c4_S1 _ (by norm_num [c4_cfg])
      (by norm_num [c4_cfg])

/-- The use-count bump of a merged-pair write leaves every instance's
refractory counter unchanged. -/
theorem map_refr_update (s : InMemoryStore) (chosen node2 : InstanceNode)
    (nid : String)
    (hch : PyDict.get s.instance_table chosen.node_id = some chosen)
    (hr : node2.stats.refractory = chosen.stats.refractory) :
    (PyDict.get (update_instance s chosen.node_id (fun _ => node2)).instance_table nid).map
        (fun nd => nd.stats.refractory)
      = (PyDict.get s.instance_table nid).map (fun nd => nd.stats.refractory) := by
  rw [get_update_instance]
  by_cases hx : nid = chosen.node_id
  · rw [if_pos hx, hch, hx, hch]
    simp [hr]
  · rw [if_neg hx]

/-- C4 (counterexample to the original claim).  On `c4_S0` the edge
`node-1 → node-2` crystallizes, setting both refractory counters to 1
(state `c4_S1`).  But re-registering the two-token sequence `上, 山`
afterwards never reaches that edge again: `_prefer_longer_tokens` now
merges the pair into the single token `上山`, so the write bumps one use
count and leaves the graph and both refractory counters (still 1, never
decremented back toward 0) untouched — and the *next* registration
behaves identically.  This refutes the claim that re-registering the pair
once decrements the counters and that a subsequent registration (counters
back at 0) can trigger a second crystallization on that edge. -/
theorem C4_counterexample_no_second_crystallization :
    MemorySystem.maybe_crystallize c4_cfg vp0 jit0 c4_S0 "node-1" "node-2" = Except.ok c4_S1
    ∧ (PyDict.get c4_S1.store.instance_table "node-1").map (fun nd => nd.stats.refractory) = some 1
    ∧ (PyDict.get c4_S1.store.instance_table "node-2").map (fun nd => nd.stats.refractory) = some 1
    ∧ ∃ node2 st2,
        MemorySystem.write_sequence c4_cfg vp0 jit0 cal0 c4_S1 ["上", "山"]
          = Except.ok ([node2], st2)
        ∧ st2.store.graph = c4_S1.store.graph
        ∧ (PyDict.get st2.store.instance_table "node-1").map (fun nd => nd.stats.refractory) = some 1
        ∧ (PyDict.get st2.store.instance_table "node-2").map (fun nd => nd.stats.refractory) = some 1
        ∧ ∃ node3 st3,
            MemorySystem.write_sequence c4_cfg vp0 jit0 cal0 st2 ["上", "山"]
              = Except.ok ([node3], st3)
            ∧ st3.store.graph = c4_S1.store.graph
            ∧ (PyDict.get st3.store.instance_table "node-1").map (fun nd => nd.stats.refractory) = some 1
            ∧ (PyDict.get st3.store.instance_table "node-2").map (fun nd => nd.stats.refractory) = some 1 := by
  refine ⟨c4_crystallize_eq, rfl, rfl, ?_⟩
  obtain ⟨ch, n2, st2, heq, hch, hn2eq, hst2, hscen2⟩ :=
    write_merged_pair c4_cfg vp0 jit0 cal0 c4_S1 "上" "山" c4_scenario
  have hr2 : n2.stats.refractory = ch.stats.refractory := by rw [hn2eq]
  have hmap2 : ∀ nid : String,
      (PyDict.get st2.store.instance_table nid).map (fun nd => nd.stats.refractory)
        = (PyDict.get c4_S1.store.instance_table nid).map (fun nd => nd.stats.refractory) := by
    intro nid
    rw [hst2]
    exact map_refr_update c4_S1.store ch n2 nid hch hr2
  have hg2 : st2.store.graph = c4_S1.store.graph := by
    rw [hst2]
    exact update_instance_graph _ _ _
  refine ⟨n2, st2, heq, hg2, (hmap2 "node-1").trans rfl, (hmap2 "node-2").trans rfl, ?_⟩
  obtain ⟨ch3, n3, st3, heq3, hch3, hn3eq, hst3, _⟩ :=
    write_merged_pair c4_cfg vp0 jit0 cal0 st2 "上" "山" hscen2
  have hr3 : n3.stats.refractory = ch3.stats.refractory := by rw [hn3eq]
  have hmap3 : ∀ nid : String,
      (PyDict.get st3.store.instance_table nid).map (fun nd => nd.stats.refractory)
        = (PyDict.get st2.store.instance_table nid).map (fun nd => nd.stats.refractory) := by
    intro nid
    rw [hst3]
    exact map_refr_update st2.store ch3 n3 nid hch3 hr3
  have hg3 : st3.store.graph = st2.store.graph := by
    rw [hst3]
    exact update_instance_graph _ _ _
  exact ⟨n3, st3, heq3, hg3.trans hg2, (hmap3 "node-1").trans ((hmap2 "node-1").trans rfl),
    (hmap3 "node-2").trans ((hmap2 "node-2").trans rfl)⟩

/-- C4 (amended).  (1) The refractory guard: whenever the check runs on
an existing sequential edge and either endpoint has a nonzero refractory
counter, the call decrements both counters toward zero (ℕ subtraction)
and changes nothing else — no crystallization.  (2) A successful
crystallization (the concrete `c4_S0` run) sets both endpoints'
refractory counters to 1, resets the old edge to walk count 1 and adds
the vertical edges to the new instance.  (3) However, once the
crystallized meta is registered, re-registering the same two-token pair
is merged by `_prefer_longer_tokens` into the single crystallized token:
the write only bumps the chosen instance's use count, the scenario
persists, and consequently no later registration of the pair ever
decrements the refractory counters or re-crystallizes the edge. -/
theorem C4_amended_refractory :
    (∀ (config : MemoryConfig) (vp : String → List ℝ) (jit : ℕ → ℝ → List ℝ)
        (st : SystemState) (lid rid : String) (left right : InstanceNode) (e : EdgeData),
      PyDict.get st.store.instance_table lid = some left →
      PyDict.get st.store.instance_table rid = some right →
      st.store.graph.get_edge lid rid = some e →
      0 < left.stats.refractory ∨ 0 < right.stats.refractory →
      MemorySystem.maybe_crystallize config vp jit st lid rid
        = Except.ok { st with store := update_instance (update_instance st.store lid dec_refractory) rid dec_refractory })
    ∧ (MemorySystem.maybe_crystallize c4_cfg vp0 jit0 c4_S0 "node-1" "node-2" = Except.ok c4_S1
        ∧ (PyDict.get c4_S1.store.instance_table "node-1").map (fun nd => nd.stats.refractory) = some 1
        ∧ (PyDict.get c4_S1.store.instance_table "node-2").map (fun nd => nd.stats.refractory) = some 1
        ∧ c4_S1.store.graph.get_edge "node-1" "node-2" = some ⟨EdgeType.horizontal, 1⟩
        ∧ c4_S1.store.graph.get_edge "node-1" "node-3" = some ⟨EdgeType.vertical, 1⟩
        ∧ c4_S1.store.graph.get_edge "node-2" "node-3" = some ⟨EdgeType.vertical, 1⟩)
    ∧ (∀ (config : MemoryConfig) (vp : String → List ℝ) (jit : ℕ → ℝ → List ℝ)
        (cal : FrequencyCalibration) (st : SystemState) (t1 t2 : String),
      merged_scenario config cal st t1 t2 →
      ∃ chosen node2 st2,
        MemorySystem.write_sequence config vp jit cal st [t1, t2] = Except.ok ([node2], st2)
        ∧ PyDict.get st.store.instance_table chosen.node_id = some chosen
        ∧ node2 = { chosen with stats := { chosen.stats with use_count := chosen.stats.use_count + 1 } }
        ∧ st2 = { st with store := update_instance st.store chosen.node_id (fun _ => node2) }
        ∧ merged_scenario config cal st2 t1 t2) :=
  ⟨fun config vp jit st lid rid left right e hl hr he href =>
      maybe_crystallize_guard config vp jit st lid rid left right e hl hr he href,
   ⟨c4_crystallize_eq, rfl, rfl, rfl, rfl, rfl⟩,
   fun config vp jit cal st t1 t2 h => write_merged_pair config vp jit cal st t1 t2 h⟩

/-- Witness for C4: the guard part applied at `c4_S1` (both counters 1 >
0, the reset edge present), and the merged-write part applied at `c4_S1`
with the concrete scenario. -/
theorem C4_amended_refractory_witness :
    (MemorySystem.maybe_crystallize c4_cfg vp0 jit0 c4_S1 "node-1" "node-2"
      = Except.ok { c4_S1 with store := update_instance (update_instance c4_S1.store "node-1" dec_refractory) "node-2" dec_refractory })
    ∧ ∃ chosen node2 st2,
        MemorySystem.write_sequence c4_cfg vp0 jit0 cal0 c4_S1 ["上", "山"]
          = Except.ok ([node2], st2)
        ∧ PyDict.get c4_S1.store.instance_table chosen.node_id = some chosen
        ∧ node2 = { chosen with stats := { chosen.stats with use_count := chosen.stats.use_count + 1 } }
        ∧ st2 = { c4_S1 with store := update_instance c4_S1.store chosen.node_id (fun _ => node2) }
        ∧ merged_scenario c4_cfg cal0 st2 "上" "山" :=
  ⟨C4_amended_refractory.1 c4_cfg vp0 jit0 c4_S1 "node-1" "node-2" c4_n1r c4_n2r
      ⟨EdgeType.horizontal, 1⟩ rfl rfl rfl (Or.inl (by decide)),
   C4_amended_refractory.2.2 c4_cfg vp0 jit0 cal0 c4_S1 "上" "山" c4_scenario⟩

end CrystallineHighway
